import Mathlib

/-! Verification of the Path.net REST client (package `path`).

A shallow embedding of `path.go`, `errors.go`, `token.go`, `rules.go` and
`acknowledgement.go`, together with a model of the parts of the Go standard
library the client relies on (`encoding/json`, `fmt`, `errors`, `net/http`).

Conventions of the embedding:
* a Go `string` and a `[]byte` holding text are Lean `String`s (valid UTF-8 text);
* a Go `int` is an `Int`;
* a Go `error` is an `Option GoError`, with `none` for `nil`;
* a Go slice is a `GoSlice`: its elements and the cells of its backing array
  that lie between its length and its capacity;
* the HTTP transport (`httpClient.Do` followed by `ioutil.ReadAll`) is a function
  stored in the client, from the request sent to the outcome of the exchange.
-/

namespace Path

/-! ## Errors -/

/-- The error values the client can return. -/
inductive GoError where
  /-- `errors.New(msg)`: an error whose message is `msg`. -/
  | errorString (msg : String)
  /-- `*json.SyntaxError`: the text is not valid JSON. -/
  | syntaxError
  /-- `*json.UnmarshalTypeError`: a JSON value of kind `value` cannot be stored in a Go value of type `goType`. -/
  | unmarshalTypeError (value : String) (goType : String)
  /-- An error raised outside the package: `net/http`, `net/url`, reading the response. -/
  | external (msg : String)
  deriving DecidableEq, Repr

/-- `errors.New`. -/
def errorsNew (msg : String) : GoError := GoError.errorString msg

/-- Whether the error was produced by `json.Unmarshal`. -/
def GoError.isJSONError : GoError → Bool
  | .syntaxError => true
  | .unmarshalTypeError _ _ => true
  | _ => false

/-- The message of an error built by `errors.New`. -/
def GoError.message? : GoError → Option String
  | .errorString m => some m
  | .external m => some m
  | _ => none

/-! ## Slices -/

/-- A Go slice: `elems` are the elements below its length, `spare` the cells of the
backing array between length and capacity. -/
structure GoSlice (α : Type) where
  elems : List α
  spare : List α
  deriving DecidableEq, Repr

/-- The `nil` slice. -/
def GoSlice.nil {α : Type} : GoSlice α := ⟨[], []⟩

/-- A slice literal `[]T{...}`. -/
def GoSlice.ofList {α : Type} (xs : List α) : GoSlice α := ⟨xs, []⟩

/-! ## `fmt` -/

/-- The verb `%d` applied to an `int`. -/
def fmtInt : Int → String
  | Int.ofNat n => Nat.repr n
  | Int.negSucc n => "-" ++ Nat.repr (n + 1)

/-- The verb `%s` applied to a `[]string`: the elements separated by one space, in square brackets. -/
def fmtStrings (xs : GoSlice String) : String :=
  "[" ++ " ".intercalate xs.elems ++ "]"

/-! ## `encoding/json`: syntax -/

/-- A JSON value as `json.Unmarshal` reads it. A number keeps its literal. -/
inductive JSON where
  | null
  | bool (b : Bool)
  | num (lit : String)
  | str (s : String)
  | arr (elems : List JSON)
  | obj (members : List (String × JSON))

/-- The name `json.UnmarshalTypeError` gives the kind of a JSON value. -/
def JSON.kind : JSON → String
  | .null => "null"
  | .bool _ => "bool"
  | .num _ => "number"
  | .str _ => "string"
  | .arr _ => "array"
  | .obj _ => "object"

/-- The scanner's `isSpace`. -/
def isSpace (c : Char) : Bool :=
  c = ' ' || c = '\t' || c = '\r' || c = '\n'

/-- Skips leading white space. -/
def skipWs : List Char → List Char
  | [] => []
  | c :: rest => if isSpace c then skipWs rest else c :: rest

/-- The value of a hexadecimal digit. -/
def hexVal (c : Char) : Option Nat :=
  if '0' ≤ c ∧ c ≤ '9' then some (c.toNat - '0'.toNat)
  else if 'a' ≤ c ∧ c ≤ 'f' then some (c.toNat - 'a'.toNat + 10)
  else if 'A' ≤ c ∧ c ≤ 'F' then some (c.toNat - 'A'.toNat + 10)
  else none

/-- The number written by four hexadecimal digits (`getu4` after the `\u`). -/
def hex4 (a b c d : Char) : Option Nat :=
  match hexVal a, hexVal b, hexVal c, hexVal d with
  | some a, some b, some c, some d => some (((a * 16 + b) * 16 + c) * 16 + d)
  | _, _, _, _ => none

/-- The character a one-letter escape stands for. -/
def simpleEscape (c : Char) : Option Char :=
  if c = '"' then some '"'
  else if c = '\\' then some '\\'
  else if c = '/' then some '/'
  else if c = 'b' then some (Char.ofNat 8)
  else if c = 'f' then some (Char.ofNat 12)
  else if c = 'n' then some '\n'
  else if c = 'r' then some '\r'
  else if c = 't' then some '\t'
  else none

/-- The replacement character `unicode.ReplacementChar`. -/
def replacementChar : Char := Char.ofNat 0xFFFD

/-- `utf16.IsSurrogate`. -/
def isSurrogate (n : Nat) : Bool := 0xD800 ≤ n && n < 0xE000

/-- `utf16.DecodeRune` on a high and a low half: the code point of a valid pair. -/
def decodeSurrogates (hi lo : Nat) : Option Nat :=
  if 0xD800 ≤ hi ∧ hi < 0xDC00 ∧ 0xDC00 ≤ lo ∧ lo < 0xE000 then
    some ((hi - 0xD800) * 0x400 + (lo - 0xDC00) + 0x10000)
  else none

/-- `getu4`: the number written by a `\uXXXX` escape at the head of the text, and the text after it. -/
def getu4 : List Char → Option (Nat × List Char)
  | bs :: u :: a :: b :: c :: d :: rest =>
    if bs = '\\' ∧ u = 'u' then
      match hex4 a b c d with
      | some n => some (n, rest)
      | none => none
    else none
  | _ => none

/-- What the head of the text inside a string literal amounts to. -/
inductive StrStep where
  /-- The closing quote, followed by `rest`. -/
  | close (rest : List Char)
  /-- One character of the string, followed by `rest`. -/
  | char (c : Char) (rest : List Char)
  /-- Not the text of a string literal. -/
  | invalid

/-- The step after `\u`: four hexadecimal digits; a surrogate half takes the low half
that follows it, if one does, and is otherwise replaced by the replacement character. -/
def unicodeStep : List Char → StrStep
  | a :: b :: c :: d :: rest =>
    match hex4 a b c d with
    | none => StrStep.invalid
    | some n =>
      if isSurrogate n then
        match getu4 rest with
        | some (m, rest2) =>
          match decodeSurrogates n m with
          | some r => StrStep.char (Char.ofNat r) rest2
          | none => StrStep.char replacementChar rest
        | none => StrStep.char replacementChar rest
      else StrStep.char (Char.ofNat n) rest
  | _ => StrStep.invalid

/-- The step after a backslash. -/
def escapeStep : List Char → StrStep
  | [] => StrStep.invalid
  | e :: rest =>
    if e = 'u' then unicodeStep rest
    else
      match simpleEscape e with
      | some ch => StrStep.char ch rest
      | none => StrStep.invalid

/-- One step inside a string literal: the closing quote, an escape, or a character that
is not a control character. -/
def strStep : List Char → StrStep
  | [] => StrStep.invalid
  | c :: rest =>
    if c = '"' then StrStep.close rest
    else if c = '\\' then escapeStep rest
    else if c.toNat < 0x20 then StrStep.invalid
    else StrStep.char c rest

/-- Reads a string literal after its opening quote (the scanner's string states and
`unquote`): the decoded characters and the text after the closing quote. Every step uses
up at least one character, so the length of the text is fuel enough. -/
def parseStr : Nat → List Char → Option (List Char × List Char)
  | 0, _ => none
  | fuel + 1, cs =>
    match strStep cs with
    | StrStep.close rest => some ([], rest)
    | StrStep.char c rest => (parseStr fuel rest).map fun p => (c :: p.1, p.2)
    | StrStep.invalid => none

/-- Splits off the leading decimal digits. -/
def takeDigits : List Char → List Char × List Char
  | [] => ([], [])
  | c :: rest =>
    if c.isDigit then ((takeDigits rest).1.cons c, (takeDigits rest).2) else ([], c :: rest)

/-- The fraction part of a number, if any: `.` and at least one digit. -/
def parseFrac : List Char → Option (List Char × List Char)
  | [] => some ([], [])
  | c :: rest =>
    if c = '.' then
      match takeDigits rest with
      | ([], _) => none
      | (d :: ds, r) => some ('.' :: d :: ds, r)
    else some ([], c :: rest)

/-- An optional sign: the sign read, and the text after it. -/
def takeSign (signs : List Char) : List Char → List Char × List Char
  | [] => ([], [])
  | c :: rest => if c ∈ signs then ([c], rest) else ([], c :: rest)

/-- The exponent part of a number, if any: `e` or `E`, an optional sign, at least one digit. -/
def parseExp : List Char → Option (List Char × List Char)
  | [] => some ([], [])
  | c :: rest =>
    if c = 'e' ∨ c = 'E' then
      match takeDigits (takeSign ['+', '-'] rest).2 with
      | ([], _) => none
      | (d :: ds, r) => some (c :: (takeSign ['+', '-'] rest).1 ++ d :: ds, r)
    else some ([], c :: rest)

/-- The integer part of a number: `0`, or a non-zero digit followed by digits. -/
def parseIntPart : List Char → Option (List Char × List Char)
  | [] => none
  | c :: rest =>
    if c = '0' then some (['0'], rest)
    else if c.isDigit then some (c :: (takeDigits rest).1, (takeDigits rest).2)
    else none

/-- Reads a number literal. -/
def parseNumber (cs : List Char) : Option (List Char × List Char) :=
  match parseIntPart (takeSign ['-'] cs).2 with
  | none => none
  | some (ip, r1) =>
    match parseFrac r1 with
    | none => none
    | some (fp, r2) =>
      match parseExp r2 with
      | none => none
      | some (ep, r3) => some ((takeSign ['-'] cs).1 ++ ip ++ fp ++ ep, r3)

/-- Strips the given letters off the head of the text (the rest of `true`, `false`, `null`). -/
def expect : List Char → List Char → Option (List Char)
  | [], cs => some cs
  | _ :: _, [] => none
  | l :: ls, c :: cs => if c = l then expect ls cs else none

/-- Reads a value that is not an array or an object, at the head of the text. -/
def parseScalar : List Char → Option (JSON × List Char)
  | [] => none
  | c :: rest =>
    if c = '"' then (parseStr rest.length rest).map fun p => (JSON.str (String.mk p.1), p.2)
    else if c = 't' then (expect ['r', 'u', 'e'] rest).map fun r => (JSON.bool true, r)
    else if c = 'f' then (expect ['a', 'l', 's', 'e'] rest).map fun r => (JSON.bool false, r)
    else if c = 'n' then (expect ['u', 'l', 'l'] rest).map fun r => (JSON.null, r)
    else (parseNumber (c :: rest)).map fun p => (JSON.num (String.mk p.1), p.2)

/-- Reads the elements of an array after the first has been found to exist: values
separated by commas, up to the closing bracket. -/
def parseElems (pv : List Char → Option (JSON × List Char)) :
    Nat → List Char → Option (List JSON × List Char)
  | 0, _ => none
  | n + 1, cs =>
    match pv cs with
    | none => none
    | some (v, r) =>
      match skipWs r with
      | [] => none
      | c :: r2 =>
        if c = ',' then (parseElems pv n r2).map fun p => (v :: p.1, p.2)
        else if c = ']' then some ([v], r2)
        else none

/-- Reads one member of an object, `"key": value`: the key, the value and the text after it. -/
def parseMember (pv : List Char → Option (JSON × List Char)) (cs : List Char) :
    Option ((String × JSON) × List Char) :=
  match skipWs cs with
  | [] => none
  | q :: r =>
    if q = '"' then
      match parseStr r.length r with
      | none => none
      | some (k, r1) =>
        match skipWs r1 with
        | [] => none
        | c :: r2 =>
          if c = ':' then (pv r2).map fun p => ((String.mk k, p.1), p.2)
          else none
    else none

/-- Reads the members of an object after the first has been found to exist: members
separated by commas, up to the closing brace. -/
def parseMembers (pv : List Char → Option (JSON × List Char)) :
    Nat → List Char → Option (List (String × JSON) × List Char)
  | 0, _ => none
  | n + 1, cs =>
    match parseMember pv cs with
    | none => none
    | some (m, r) =>
      match skipWs r with
      | [] => none
      | c :: r2 =>
        if c = ',' then (parseMembers pv n r2).map fun p => (m :: p.1, p.2)
        else if c = '}' then some ([m], r2)
        else none

/-- The scanner's `maxNestingDepth`: arrays and objects nest at most this deep. -/
def maxNestingDepth : Nat := 10000

/-- Reads an array after its opening bracket; `pv` reads its elements. -/
def parseArray (pv : List Char → Option (JSON × List Char)) (rest : List Char) :
    Option (JSON × List Char) :=
  match skipWs rest with
  | [] => none
  | c :: r =>
    if c = ']' then some (JSON.arr [], r)
    else (parseElems pv (c :: r).length (c :: r)).map fun p => (JSON.arr p.1, p.2)

/-- Reads an object after its opening brace; `pv` reads the values of its members. -/
def parseObject (pv : List Char → Option (JSON × List Char)) (rest : List Char) :
    Option (JSON × List Char) :=
  match skipWs rest with
  | [] => none
  | c :: r =>
    if c = '}' then some (JSON.obj [], r)
    else (parseMembers pv (c :: r).length (c :: r)).map fun p => (JSON.obj p.1, p.2)

/-- Reads one value, skipping the white space before it; `depth` is how many more
levels of arrays and objects may be opened. -/
def parseValue : Nat → List Char → Option (JSON × List Char)
  | 0, cs =>
    match skipWs cs with
    | [] => none
    | c :: rest => if c = '[' ∨ c = '{' then none else parseScalar (c :: rest)
  | depth + 1, cs =>
    match skipWs cs with
    | [] => none
    | c :: rest =>
      if c = '[' then parseArray (parseValue depth) rest
      else if c = '{' then parseObject (parseValue depth) rest
      else parseScalar (c :: rest)

/-- Reads a whole JSON text (`checkValid` and the decoder's scan): one value, with only
white space around it. -/
def parseJSON (text : String) : Option JSON :=
  match parseValue maxNestingDepth text.data with
  | none => none
  | some (v, rest) => if skipWs rest = [] then some v else none

/-! ## `encoding/json`: decoding into Go values -/

/-- The decoder's `saveError`: the first error met is the one `Unmarshal` returns. -/
def saveError (saved new : Option GoError) : Option GoError :=
  match saved with
  | some e => some e
  | none => new

/-- The case folding under which a key of the text matches a field name: ASCII letters
without regard to case, with the long s and the Kelvin sign folding to `s` and `k`. -/
def foldChar (c : Char) : Char :=
  if 'a' ≤ c ∧ c ≤ 'z' then Char.ofNat (c.toNat - 32)
  else if c = Char.ofNat 0x17F then 'S'
  else if c = Char.ofNat 0x212A then 'K'
  else c

/-- A name with every character folded. -/
def foldName (s : String) : List Char := s.data.map foldChar

/-- The field a key of the text selects: the field with exactly that name, or else the
first one that matches it under case folding. -/
def matchField (fields : List String) (key : String) : Option String :=
  match fields.find? (fun f => f = key) with
  | some f => some f
  | none => fields.find? (fun f => foldName f = foldName key)

/-- Decoding into a Go `string`: a JSON string is stored, `null` leaves the value as it
was, anything else is a type error that leaves the value as it was. -/
def decodeString : JSON → String → String × Option GoError
  | .str s, _ => (s, none)
  | .null, old => (old, none)
  | v, old => (old, some (.unmarshalTypeError v.kind "string"))

/-- Decoding into a Go `bool`: `true` or `false` is stored, `null` leaves the value as it
was, anything else is a type error that leaves the value as it was. -/
def decodeBool : JSON → Bool → Bool × Option GoError
  | .bool b, _ => (b, none)
  | .null, old => (old, none)
  | v, old => (old, some (.unmarshalTypeError v.kind "bool"))

/-- Decoding the elements of an array into the cells of a slice: element `i` is decoded
into cell `i` of the backing array, or into a zero value past its end. The decoder does not
clear a cell before decoding into it, so a member that the text leaves out keeps what the
cell held. -/
def decodeElems {α : Type} (dec : JSON → α → α × Option GoError) (zero : α) :
    List JSON → List α → List α × Option GoError
  | [], _ => ([], none)
  | x :: xs, cells =>
    ((dec x (cells.headD zero)).1 :: (decodeElems dec zero xs cells.tail).1,
      saveError (dec x (cells.headD zero)).2 (decodeElems dec zero xs cells.tail).2)

/-- Decoding into a Go slice whose type is named `goType`: an array fills the cells from
the first on and sets the length to the number of its elements (an empty array gives a
fresh empty slice), `null` gives the nil slice, anything else is a type error that leaves
the slice as it was. -/
def decodeSlice {α : Type} (dec : JSON → α → α × Option GoError) (zero : α) (goType : String) :
    JSON → GoSlice α → GoSlice α × Option GoError
  | .arr [], _ => (⟨[], []⟩, none)
  | .arr (x :: xs), old =>
    (⟨(decodeElems dec zero (x :: xs) (old.elems ++ old.spare)).1,
        (old.elems ++ old.spare).drop (x :: xs).length⟩,
      (decodeElems dec zero (x :: xs) (old.elems ++ old.spare)).2)
  | .null, _ => (GoSlice.nil, none)
  | v, old => (old, some (.unmarshalTypeError v.kind goType))

/-! ## `encoding/json`: encoding -/

/-- The encoder's table `hex`. -/
def hex (n : Nat) : Char := "0123456789abcdef".data.getD n '0'

/-- The encoder's `htmlSafeSet`: the ASCII characters written as they are, which are those
from the space on, without the quote, the backslash and `<`, `>`, `&`. -/
def htmlSafe (c : Char) : Bool :=
  decide (0x20 ≤ c.toNat) && decide (c.toNat < 0x80) &&
    !(c = '"' || c = '\\' || c = '<' || c = '>' || c = '&')

/-- How the encoder writes one character of a string, with the HTML escaping that
`json.Marshal` applies: a backslash before the quote and the backslash, `\n`, `\r`, `\t`,
`\u00XX` for the other control characters and for `<`, `>`, `&`, `\u2028` and `\u2029` for
the two line separators, and every other character as it is. -/
def encodeChar (c : Char) : List Char :=
  if c.toNat < 0x80 then
    if htmlSafe c then [c]
    else if c = '\\' ∨ c = '"' then ['\\', c]
    else if c = '\n' then ['\\', 'n']
    else if c = '\r' then ['\\', 'r']
    else if c = '\t' then ['\\', 't']
    else ['\\', 'u', '0', '0', hex (c.toNat / 16), hex (c.toNat % 16)]
  else if c.toNat = 0x2028 ∨ c.toNat = 0x2029 then ['\\', 'u', '2', '0', '2', hex (c.toNat % 16)]
  else [c]

/-- The characters of a string as the encoder writes them, one after the other. -/
def encodeChars : List Char → List Char
  | [] => []
  | c :: cs => encodeChar c ++ encodeChars cs

/-- The encoder's `string`: the string literal for a Go string. -/
def encodeString (s : String) : List Char := '"' :: (encodeChars s.data ++ ['"'])

/-- Texts one after the other with commas between them, and the closing character. -/
def joinTexts (close : Char) : List (List Char) → List Char
  | [] => [close]
  | [t] => t ++ [close]
  | t :: t2 :: ts => t ++ ',' :: joinTexts close (t2 :: ts)

/-- The compact text the encoder writes for a value, for values nested at most `depth` deep. -/
def render : Nat → JSON → List Char
  | _, JSON.null => ['n', 'u', 'l', 'l']
  | _, JSON.bool true => ['t', 'r', 'u', 'e']
  | _, JSON.bool false => ['f', 'a', 'l', 's', 'e']
  | _, JSON.num lit => lit.data
  | _, JSON.str s => encodeString s
  | 0, JSON.arr _ => []
  | 0, JSON.obj _ => []
  | depth + 1, JSON.arr xs => '[' :: joinTexts ']' (xs.map (render depth))
  | depth + 1, JSON.obj ms =>
    '{' :: joinTexts '}' (ms.map fun m => encodeString m.1 ++ ':' :: render depth m.2)

/-- The compact JSON text of a value. -/
def JSON.compact (v : JSON) : String := String.mk (render maxNestingDepth v)

/-! ## The data model (`errors.go`, `token.go`, `acknowledgement.go`, `rules.go`) -/

/-- Represents a generic error. -/
structure Error where
  Detail : String
  deriving DecidableEq, Repr

/-- One entry of a validation error. The field `Type` of the source is `Type_` here. -/
structure ValidationErrorItem where
  Loc : GoSlice String
  Msg : String
  Type_ : String
  deriving DecidableEq, Repr

/-- ValidationError outlines the details of the validation issue that occurred. -/
structure ValidationError where
  Detail : GoSlice ValidationErrorItem
  deriving DecidableEq, Repr

/-- HTTPValidationError is an error returned when an expected value is missing or malformed. -/
structure HTTPValidationError where
  Detail : GoSlice ValidationErrorItem
  deriving DecidableEq, Repr

/-- Modelled from the spec: the declaration of `AuthorizationTokenType` is not among the
sources; the spec describes the token type as a string such as "bearer". -/
abbrev AuthorizationTokenType := String

/-- Token holds the data returned from the /token endpoint after successful authentication. -/
structure Token where
  AccessToken : String
  TokenType : AuthorizationTokenType
  deriving DecidableEq, Repr

/-- AccessTokenRequest holds the necessary data that the /token endpoint expects. -/
structure AccessTokenRequest where
  GrantType : String
  Username : String
  Password : String
  Scope : String
  ClientID : String
  ClientSecret : String
  deriving DecidableEq, Repr

/-- Acknowledgement is the response of the delete operations. -/
structure Acknowledgement where
  Acknowledged : Bool
  deriving DecidableEq, Repr

/-- Rule represents a rule entry in the firewall. `RateLimiterID` is a `*string`. -/
structure Rule where
  Protocol : String
  DstPort : Int
  SrcPort : Int
  RateLimiterID : Option String
  Whitelist : Bool
  Destination : String
  Source : String
  Priority : Bool
  Comment : String
  ID : String
  deriving DecidableEq, Repr

/-! ### Decoding the response types -/

/-- One member of an object decoded into an `Error`: a key that matches no field is
skipped, a later member with the same key decodes over the earlier one. -/
def decodeErrorMember (acc : Error × Option GoError) (m : String × JSON) :
    Error × Option GoError :=
  match matchField ["detail"] m.1 with
  | some _ => ({ Detail := (decodeString m.2 acc.1.Detail).1 },
      saveError acc.2 (decodeString m.2 acc.1.Detail).2)
  | none => acc

/-- Decoding into an `Error`. -/
def decodeError : JSON → Error → Error × Option GoError
  | .obj ms, old => ms.foldl decodeErrorMember (old, none)
  | .null, old => (old, none)
  | v, old => (old, some (.unmarshalTypeError v.kind "path.Error"))

/-- One member of an object decoded into a `ValidationErrorItem`. -/
def decodeItemMember (acc : ValidationErrorItem × Option GoError) (m : String × JSON) :
    ValidationErrorItem × Option GoError :=
  match matchField ["loc", "msg", "type"] m.1 with
  | some "loc" =>
    ({ acc.1 with Loc := (decodeSlice decodeString "" "[]string" m.2 acc.1.Loc).1 },
      saveError acc.2 (decodeSlice decodeString "" "[]string" m.2 acc.1.Loc).2)
  | some "msg" =>
    ({ acc.1 with Msg := (decodeString m.2 acc.1.Msg).1 },
      saveError acc.2 (decodeString m.2 acc.1.Msg).2)
  | some "type" =>
    ({ acc.1 with Type_ := (decodeString m.2 acc.1.Type_).1 },
      saveError acc.2 (decodeString m.2 acc.1.Type_).2)
  | _ => acc

/-- Decoding into a `ValidationErrorItem`. -/
def decodeItem : JSON → ValidationErrorItem → ValidationErrorItem × Option GoError
  | .obj ms, old => ms.foldl decodeItemMember (old, none)
  | .null, old => (old, none)
  | v, old => (old, some (.unmarshalTypeError v.kind "path.ValidationErrorItem"))

/-- The zero `ValidationErrorItem`. -/
def zeroItem : ValidationErrorItem := ⟨GoSlice.nil, "", ""⟩

/-- One member of an object decoded into the `Detail` of a validation error. -/
def decodeDetailMember (acc : GoSlice ValidationErrorItem × Option GoError) (m : String × JSON) :
    GoSlice ValidationErrorItem × Option GoError :=
  match matchField ["detail"] m.1 with
  | some _ =>
    ((decodeSlice decodeItem zeroItem "[]path.ValidationErrorItem" m.2 acc.1).1,
      saveError acc.2 (decodeSlice decodeItem zeroItem "[]path.ValidationErrorItem" m.2 acc.1).2)
  | none => acc

/-- Decoding into a `ValidationError`. -/
def decodeValidationError : JSON → ValidationError → ValidationError × Option GoError
  | .obj ms, old => (⟨(ms.foldl decodeDetailMember (old.Detail, none)).1⟩,
      (ms.foldl decodeDetailMember (old.Detail, none)).2)
  | .null, old => (old, none)
  | v, old => (old, some (.unmarshalTypeError v.kind "path.ValidationError"))

/-- Decoding into an `HTTPValidationError`. -/
def decodeHTTPValidationError : JSON → HTTPValidationError → HTTPValidationError × Option GoError
  | .obj ms, old => (⟨(ms.foldl decodeDetailMember (old.Detail, none)).1⟩,
      (ms.foldl decodeDetailMember (old.Detail, none)).2)
  | .null, old => (old, none)
  | v, old => (old, some (.unmarshalTypeError v.kind "path.HTTPValidationError"))

/-- One member of an object decoded into a `Token`. -/
def decodeTokenMember (acc : Token × Option GoError) (m : String × JSON) :
    Token × Option GoError :=
  match matchField ["access_token", "token_type"] m.1 with
  | some "access_token" =>
    ({ acc.1 with AccessToken := (decodeString m.2 acc.1.AccessToken).1 },
      saveError acc.2 (decodeString m.2 acc.1.AccessToken).2)
  | some "token_type" =>
    ({ acc.1 with TokenType := (decodeString m.2 acc.1.TokenType).1 },
      saveError acc.2 (decodeString m.2 acc.1.TokenType).2)
  | _ => acc

/-- Decoding into a `Token`. -/
def decodeToken : JSON → Token → Token × Option GoError
  | .obj ms, old => ms.foldl decodeTokenMember (old, none)
  | .null, old => (old, none)
  | v, old => (old, some (.unmarshalTypeError v.kind "path.Token"))

/-- One member of an object decoded into an `Acknowledgement`. -/
def decodeAcknowledgementMember (acc : Acknowledgement × Option GoError) (m : String × JSON) :
    Acknowledgement × Option GoError :=
  match matchField ["acknowledged"] m.1 with
  | some _ => ({ Acknowledged := (decodeBool m.2 acc.1.Acknowledged).1 },
      saveError acc.2 (decodeBool m.2 acc.1.Acknowledged).2)
  | none => acc

/-- Decoding into an `Acknowledgement`. -/
def decodeAcknowledgement : JSON → Acknowledgement → Acknowledgement × Option GoError
  | .obj ms, old => ms.foldl decodeAcknowledgementMember (old, none)
  | .null, old => (old, none)
  | v, old => (old, some (.unmarshalTypeError v.kind "path.Acknowledgement"))

/-- `json.Unmarshal(data, &v)` for a destination decoded by `dec`: the text is checked
first, and a text that is not valid JSON leaves `v` as it was. -/
def Unmarshal {α : Type} (dec : JSON → α → α × Option GoError) (data : String) (v : α) :
    α × Option GoError :=
  match parseJSON data with
  | none => (v, some GoError.syntaxError)
  | some j => dec j v

/-! ## `net/http` -/

/-- An `http.Header`: the values recorded under each key, `none` for a key that is absent. -/
abbrev Header := String → Option (List String)

/-- The empty header of a new request. -/
def Header.empty : Header := fun _ => none

/-- `Header.Add` for a key already in canonical form: appends to the values under the key. -/
def Header.Add (h : Header) (key value : String) : Header :=
  fun k => if k = key then some ((h key).getD [] ++ [value]) else h k

/-- The body given to `http.NewRequest`. -/
inductive RequestBody where
  /-- A `nil` body. -/
  | none
  /-- A reader over the given text. -/
  | text (content : String)
  /-- A reader over `form.Encode()`, for the form with the given keys and values. -/
  | form (values : List (String × String))
  deriving DecidableEq, Repr

/-- An `http.Request`. -/
structure Request where
  Method : String
  URL : String
  Header : Header
  Body : RequestBody

/-- What came back for a request that was carried out: the status code, and what
`ioutil.ReadAll(resp.Body)` returns (the bytes read and the error, if any). -/
structure Response where
  StatusCode : Int
  Body : String
  ReadErr : Option GoError
  deriving DecidableEq, Repr

/-- `http.NewRequest` for one of the method constants; `parseURL` stands for `url.Parse`,
the one step of it that can fail, and gives the error for a URL it rejects. -/
def NewRequest (parseURL : String → Option GoError) (method url : String) (body : RequestBody) :
    Except GoError Request :=
  match parseURL url with
  | some e => Except.error e
  | none => Except.ok { Method := method, URL := url, Header := Header.empty, Body := body }

/-! ## The client (`path.go`) -/

/-- Client is a REST API client for Path.net. `httpClient` is the behaviour of
`httpClient.Do`: the transport error or the response for each request. -/
structure Client where
  token : Token
  httpClient : Request → Except GoError Response
  baseURL : String

/-- What `handleRequest` leaves behind: the request as it was sent (the function adds to
the header of the request it is given), the body and the error. -/
structure Handled where
  sent : Request
  body : String
  err : Option GoError

/-- The request `handleRequest` hands to `httpClient.Do`. -/
def authorize (client : Client) (req : Request) : Request :=
  if client.token.AccessToken ≠ "" then
    { req with
      Header := req.Header.Add "Authorization" (client.token.TokenType ++ " " ++ client.token.AccessToken) }
  else req

/-- One entry of a validation error as the error message shows it. -/
def entryBlock (errEntry : ValidationErrorItem) : String :=
  "\n- Message: " ++ errEntry.Msg ++ "\n  Type: " ++ errEntry.Type_ ++
    "\n  Location: " ++ fmtStrings errEntry.Loc

/-- The classification of a response whose body was read. -/
def classify (statusCode : Int) (body : String) : Option GoError :=
  if statusCode = 202 ∨ statusCode = 200 then none
  else if statusCode = 401 then
    match Unmarshal decodeError body ⟨""⟩ with
    | (_, some err) => some err
    | (apiError, none) => some (errorsNew apiError.Detail)
  else if statusCode = 422 then
    match Unmarshal decodeValidationError body ⟨GoSlice.nil⟩ with
    | (_, some err) => some err
    | (apiErrors, none) =>
      some (errorsNew (apiErrors.Detail.elems.foldl (fun errMsg errEntry => errMsg ++ entryBlock errEntry) ""))
  else some (errorsNew ("Received unexpected status code: " ++ fmtInt statusCode))

/-- handleRequest executes the provided request and does all of the error processing. -/
def handleRequest (client : Client) (req : Request) : Handled :=
  match client.httpClient (authorize client req) with
  | Except.error err => { sent := authorize client req, body := "", err := some err }
  | Except.ok resp =>
    match resp.ReadErr with
    | some err => { sent := authorize client req, body := resp.Body, err := some err }
    | none =>
      { sent := authorize client req, body := resp.Body, err := classify resp.StatusCode resp.Body }

/-- The request `GetToken` builds. -/
def tokenRequest (parseURL : String → Option GoError) (client : Client) (request : AccessTokenRequest) :
    Except GoError Request :=
  match NewRequest parseURL "POST" (client.baseURL ++ "/token")
      (RequestBody.form [("grant_type", request.GrantType), ("username", request.Username),
        ("password", request.Password), ("scope", request.Scope),
        ("client_id", request.ClientID), ("client_secret", request.ClientSecret)]) with
  | Except.error err => Except.error err
  | Except.ok req =>
    Except.ok { req with Header := req.Header.Add "Content-Type" "application/x-www-form-urlencoded" }

/-- GetToken attempts to retrieve an access token; it returns the client as the call
leaves it, and the error. -/
def GetToken (parseURL : String → Option GoError) (client : Client) (request : AccessTokenRequest) :
    Client × Option GoError :=
  match tokenRequest parseURL client request with
  | Except.error err => (client, some err)
  | Except.ok req =>
    match (handleRequest client req).err with
    | some err => (client, some err)
    | none =>
      match Unmarshal decodeToken (handleRequest client req).body ⟨"", ""⟩ with
      | (_, some err) => (client, some err)
      | (receivedToken, none) => ({ client with token := receivedToken }, none)

/-- What the delete operations and `ChangePassword` do with the result of `handleRequest`. -/
def acknowledged (h : Handled) : Option GoError :=
  match h.err with
  | some err => some err
  | none =>
    if ¬ (Unmarshal decodeAcknowledgement h.body ⟨false⟩).1.Acknowledged then
      some (errorsNew "request was not acknowledged")
    else (Unmarshal decodeAcknowledgement h.body ⟨false⟩).2

/-- The request `ChangePassword` builds. -/
def passwordRequest (parseURL : String → Option GoError) (client : Client)
    (oldPassword newPassword : String) : Except GoError Request :=
  match NewRequest parseURL "POST" (client.baseURL ++ "/account/password")
      (RequestBody.form [("old_password", oldPassword), ("new_password", newPassword)]) with
  | Except.error err => Except.error err
  | Except.ok req =>
    Except.ok { req with Header := req.Header.Add "Content-Type" "application/x-www-form-urlencoded" }

/-- ChangePassword posts the old and the new password and checks the acknowledgement; it
never touches the token (the comment above it in the source is the one of `GetToken`). -/
def ChangePassword (parseURL : String → Option GoError) (client : Client)
    (oldPassword newPassword : String) : Option GoError :=
  match passwordRequest parseURL client oldPassword newPassword with
  | Except.error err => some err
  | Except.ok req => acknowledged (handleRequest client req)

/-- The request `deleteResource` builds. -/
def deleteRequest (parseURL : String → Option GoError) (client : Client) (loc : String) :
    Except GoError Request :=
  match NewRequest parseURL "DELETE" (client.baseURL ++ loc) RequestBody.none with
  | Except.error err => Except.error err
  | Except.ok req => Except.ok { req with Header := req.Header.Add "Content-Type" "application/json" }

/-- Delete a REST API service. -/
def deleteResource (parseURL : String → Option GoError) (client : Client) (loc : String) :
    Option GoError :=
  match deleteRequest parseURL client loc with
  | Except.error err => some err
  | Except.ok req => acknowledged (handleRequest client req)

/-- Delete a network diversion. -/
def DeleteDiversion (parseURL : String → Option GoError) (client : Client) (network : String)
    (prefixLength : Int) : Option GoError :=
  deleteResource parseURL client ("/diversions/" ++ network ++ "/" ++ fmtInt prefixLength)

/-- Delete a rule. -/
def DeleteRule (parseURL : String → Option GoError) (client : Client) (ruleID : String) :
    Option GoError :=
  deleteResource parseURL client ("/rules/" ++ ruleID)

/-- Delete a rate limiter (the comment above it in the source says "Delete a rule"). -/
def DeleteRateLimiter (parseURL : String → Option GoError) (client : Client)
    (rateLimiterID : String) : Option GoError :=
  deleteResource parseURL client ("/rate_limiters/" ++ rateLimiterID)

/-- Delete a filter. -/
def DeleteFilter (parseURL : String → Option GoError) (client : Client)
    (filterType filterID : String) : Option GoError :=
  deleteResource parseURL client ("/filters/" ++ filterType ++ "/" ++ filterID)

/-- The client `NewClient` starts from: no token, the given transport, the base URL of
the service. -/
def freshClient (httpClient : Request → Except GoError Response) : Client :=
  { token := ⟨"", ""⟩, httpClient := httpClient, baseURL := "https://api.path.net" }

/-- Create a new Path API client and fetch an access token. -/
def NewClient (parseURL : String → Option GoError)
    (httpClient : Request → Except GoError Response) (tokenRequest : AccessTokenRequest) :
    Client × Option GoError :=
  GetToken parseURL (freshClient httpClient) tokenRequest

/-! ## Creating a rule (`path.go`, `rules.go`) -/

/-- The value the encoder writes for a `*string`: `null` for a nil pointer, the string for
a pointer to one. -/
def encodePointer : Option String → JSON
  | none => JSON.null
  | some s => JSON.str s

/-- The members `json.Marshal` writes for a `Rule`, in the order of its fields; the fields
tagged `omitempty` are left out when they hold the zero value. -/
def ruleMembers (rule : Rule) : List (String × JSON) :=
  (if rule.Protocol = "" then [] else [("protocol", JSON.str rule.Protocol)]) ++
  ((if rule.DstPort = 0 then [] else [("dst_port", JSON.num (fmtInt rule.DstPort))]) ++
  ((if rule.SrcPort = 0 then [] else [("src_port", JSON.num (fmtInt rule.SrcPort))]) ++
  ([("rate_limiter_id", encodePointer rule.RateLimiterID),
    ("whitelist", JSON.bool rule.Whitelist),
    ("destination", JSON.str rule.Destination),
    ("source", JSON.str rule.Source),
    ("priority", JSON.bool rule.Priority),
    ("comment", JSON.str rule.Comment)] ++
  (if rule.ID = "" then [] else [("id", JSON.str rule.ID)]))))

/-- `json.Marshal` of a `Rule`. -/
def marshalRule (rule : Rule) : String := (JSON.obj (ruleMembers rule)).compact

/-- The request `CreateRule` builds: a POST to `/rules` with the JSON of the rule as body. -/
def createRuleRequest (parseURL : String → Option GoError) (client : Client) (newRule : Rule) :
    Except GoError Request :=
  NewRequest parseURL "POST" (client.baseURL ++ "/rules") (RequestBody.text (marshalRule newRule))

/-! ## What counts as a JSON text (RFC 8259), for stating the properties -/

/-- White space: every character is a space, a tab, a carriage return or a line feed. -/
def Ws (ws : List Char) : Prop := ∀ c ∈ ws, c = ' ' ∨ c = '\t' ∨ c = '\r' ∨ c = '\n'

/-- The hexadecimal digit of a number below sixteen, in lower or in upper case. -/
def hexDigit (upper : Bool) (n : Nat) : Char :=
  if n < 10 then Char.ofNat (48 + n)
  else if upper then Char.ofNat (55 + n) else Char.ofNat (87 + n)

/-- The characters `a b c d` are four hexadecimal digits writing `n`. -/
def Hex4Of (n : Nat) (a b c d : Char) : Prop :=
  ∃ h1 h2 h3 h4 : Nat, ∃ u1 u2 u3 u4 : Bool, h1 < 16 ∧ h2 < 16 ∧ h3 < 16 ∧ h4 < 16 ∧
    a = hexDigit u1 h1 ∧ b = hexDigit u2 h2 ∧ c = hexDigit u3 h3 ∧ d = hexDigit u4 h4 ∧
    n = h1 * 4096 + h2 * 256 + h3 * 16 + h4

/-- The ways a JSON text may write one character of a string: as itself, by a
one-letter escape, by `\uXXXX`, or by a pair of surrogate escapes. -/
inductive CharLit : Char → List Char → Prop where
  | plain (c : Char) : c ≠ '"' → c ≠ '\\' → 0x20 ≤ c.toNat → CharLit c [c]
  | quote : CharLit '"' ['\\', '"']
  | backslash : CharLit '\\' ['\\', '\\']
  | slash : CharLit '/' ['\\', '/']
  | backspace : CharLit (Char.ofNat 8) ['\\', 'b']
  | formFeed : CharLit (Char.ofNat 12) ['\\', 'f']
  | lineFeed : CharLit '\n' ['\\', 'n']
  | carriageReturn : CharLit '\r' ['\\', 'r']
  | tab : CharLit '\t' ['\\', 't']
  | unicode (ch a b c d : Char) : Hex4Of ch.toNat a b c d → CharLit ch ['\\', 'u', a, b, c, d]
  | pair (ch a b c d a2 b2 c2 d2 : Char) (hi lo : Nat) :
      0xD800 ≤ hi → hi < 0xDC00 → 0xDC00 ≤ lo → lo < 0xE000 →
      ch.toNat = 0x10000 + (hi - 0xD800) * 0x400 + (lo - 0xDC00) →
      Hex4Of hi a b c d → Hex4Of lo a2 b2 c2 d2 →
      CharLit ch ['\\', 'u', a, b, c, d, '\\', 'u', a2, b2, c2, d2]

/-- The text between the quotes of a string literal that writes the given characters. -/
inductive StrLit : List Char → List Char → Prop where
  | nil : StrLit [] []
  | cons (c : Char) (l : List Char) (cs ls : List Char) :
      CharLit c l → StrLit cs ls → StrLit (c :: cs) (l ++ ls)

/-- What may follow a value in a JSON text: the end of the text, white space, a comma,
a closing bracket or a closing brace. -/
def Delimited (rest : List Char) : Prop :=
  ∀ c r, rest = c :: r → c = ' ' ∨ c = '\t' ∨ c = '\r' ∨ c = '\n' ∨ c = ',' ∨ c = ']' ∨ c = '}'

/-- Every character is a decimal digit. -/
def Digits (ds : List Char) : Prop := ∀ c ∈ ds, c.isDigit = true

/-- The integer part of a number: `0`, or digits that do not start with `0`. -/
def IntPart (ip : List Char) : Prop :=
  ip = ['0'] ∨ ∃ d ds, ip = d :: ds ∧ d ≠ '0' ∧ Digits (d :: ds)

/-- The fraction part of a number: nothing, or a point and one digit or more. -/
def FracPart (fp : List Char) : Prop :=
  fp = [] ∨ ∃ d ds, fp = '.' :: d :: ds ∧ Digits (d :: ds)

/-- The exponent part of a number: nothing, or `e` or `E`, a sign or none, and one digit or more. -/
def ExpPart (ep : List Char) : Prop :=
  ep = [] ∨ ∃ e sg d ds, ep = e :: (sg ++ d :: ds) ∧ (e = 'e' ∨ e = 'E') ∧
    (sg = [] ∨ sg = ['+'] ∨ sg = ['-']) ∧ Digits (d :: ds)

/-- The text is a JSON number. -/
def NumLit (t : List Char) : Prop :=
  ∃ sg ip fp ep, t = sg ++ (ip ++ (fp ++ ep)) ∧ (sg = [] ∨ sg = ['-']) ∧
    IntPart ip ∧ FracPart fp ∧ ExpPart ep

/-- The text of the elements of an array after the first bracket, closing bracket
included: element texts separated by commas, white space allowed around them. -/
inductive ElemsText (VT : JSON → List Char → Prop) : List JSON → List Char → Prop where
  | last (v : JSON) (t ws : List Char) : VT v t → Ws ws → ElemsText VT [v] (t ++ (ws ++ [']']))
  | more (v : JSON) (t ws ws2 : List Char) (vs : List JSON) (ts : List Char) :
      VT v t → Ws ws → Ws ws2 → ElemsText VT vs ts →
      ElemsText VT (v :: vs) (t ++ (ws ++ ',' :: (ws2 ++ ts)))

/-- The text of one member of an object: the key as a string literal, a colon, the value. -/
def MemberText (VT : JSON → List Char → Prop) (m : String × JSON) (mt : List Char) : Prop :=
  ∃ klit ws1 ws2 t, StrLit m.1.data klit ∧ Ws ws1 ∧ Ws ws2 ∧ VT m.2 t ∧
    mt = '"' :: (klit ++ '"' :: (ws1 ++ ':' :: (ws2 ++ t)))

/-- The text of the members of an object after the first brace, closing brace included. -/
inductive MembersText (VT : JSON → List Char → Prop) :
    List (String × JSON) → List Char → Prop where
  | last (m : String × JSON) (mt ws : List Char) :
      MemberText VT m mt → Ws ws → MembersText VT [m] (mt ++ (ws ++ ['}']))
  | more (m : String × JSON) (mt ws ws2 : List Char) (ms : List (String × JSON)) (ts : List Char) :
      MemberText VT m mt → Ws ws → Ws ws2 → MembersText VT ms ts →
      MembersText VT (m :: ms) (mt ++ (ws ++ ',' :: (ws2 ++ ts)))

/-- The text `t` writes the value `v`, with arrays and objects nested at most `depth`
deep and no white space before or after it. -/
def ValueText : Nat → JSON → List Char → Prop
  | _, JSON.null, t => t = ['n', 'u', 'l', 'l']
  | _, JSON.bool true, t => t = ['t', 'r', 'u', 'e']
  | _, JSON.bool false, t => t = ['f', 'a', 'l', 's', 'e']
  | _, JSON.num lit, t => t = lit.data ∧ NumLit t
  | _, JSON.str s, t => ∃ lit, StrLit s.data lit ∧ t = '"' :: (lit ++ ['"'])
  | 0, JSON.arr _, _ => False
  | 0, JSON.obj _, _ => False
  | _ + 1, JSON.arr [], t => ∃ ws, Ws ws ∧ t = '[' :: (ws ++ [']'])
  | depth + 1, JSON.arr (v :: vs), t =>
    ∃ ws ts, Ws ws ∧ ElemsText (ValueText depth) (v :: vs) ts ∧ t = '[' :: (ws ++ ts)
  | _ + 1, JSON.obj [], t => ∃ ws, Ws ws ∧ t = '{' :: (ws ++ ['}'])
  | depth + 1, JSON.obj (m :: ms), t =>
    ∃ ws ts, Ws ws ∧ MembersText (ValueText depth) (m :: ms) ts ∧ t = '{' :: (ws ++ ts)

/-- The text is a JSON text of the value `v`: the value, with white space allowed
before and after it. -/
def JSONText (v : JSON) (text : String) : Prop :=
  ∃ ws1 t ws2, Ws ws1 ∧ Ws ws2 ∧ ValueText maxNestingDepth v t ∧ text.data = ws1 ++ (t ++ ws2)

/-- The first character of a value: what decides how the text is read. -/
def ValueHead (v : JSON) (c : Char) : Prop :=
  isSpace c = false ∧ c ≠ ']' ∧
  match v with
  | JSON.arr _ => c = '['
  | JSON.obj _ => c = '{'
  | JSON.str _ => c = '"'
  | JSON.null => c = 'n'
  | JSON.bool true => c = 't'
  | JSON.bool false => c = 'f'
  | JSON.num _ => c = '-' ∨ c.isDigit = true

/-- What reading a value has to do for the texts that `VT` describes. -/
def Reads (pv : List Char → Option (JSON × List Char)) (VT : JSON → List Char → Prop) : Prop :=
  ∀ v t, VT v t → ∀ ws rest, Ws ws → Delimited rest → pv (ws ++ (t ++ rest)) = some (v, rest)

/-- The value can be written: its numbers are JSON numbers and it nests at most `depth` deep. -/
def Writable : Nat → JSON → Prop
  | _, JSON.null => True
  | _, JSON.bool _ => True
  | _, JSON.num lit => NumLit lit.data
  | _, JSON.str _ => True
  | 0, JSON.arr _ => False
  | 0, JSON.obj _ => False
  | depth + 1, JSON.arr xs => ∀ x ∈ xs, Writable depth x
  | depth + 1, JSON.obj ms => ∀ m ∈ ms, Writable depth m.2

/-- An error, if there is one, comes from `json.Unmarshal`. -/
def FromJSON (err : Option GoError) : Prop := ∀ e, err = some e → e.isJSONError = true

/-- The members of the JSON object of a validation error entry with the given location
path, message and type. -/
def entryMembers (entry : List String × String × String) : List (String × JSON) :=
  [("loc", JSON.arr (entry.1.map JSON.str)), ("msg", JSON.str entry.2.1),
    ("type", JSON.str entry.2.2)]

/-- The JSON value is an object with the members "loc", "msg" and "type" of the entry, in
some order. -/
def IsEntry (j : JSON) (entry : List String × String × String) : Prop :=
  ∃ ms, j = JSON.obj ms ∧ ms.Perm (entryMembers entry)

/-- The `ValidationErrorItem` with the given location path, message and type. -/
def entryItem (entry : List String × String × String) : ValidationErrorItem :=
  { Loc := GoSlice.ofList entry.1, Msg := entry.2.1, Type_ := entry.2.2 }

/-! ## Concrete clients, for the examples -/

/-- A transport that answers every request with the given status code and body. -/
def serve (statusCode : Int) (body : String) : Request → Except GoError Response :=
  fun _ => Except.ok { StatusCode := statusCode, Body := body, ReadErr := none }

/-- A client of a server that answers every request with the given status code and body. -/
def clientOf (token : Token) (statusCode : Int) (body : String) : Client :=
  { token := token, httpClient := serve statusCode body, baseURL := "https://api.path.net" }

/-- A `url.Parse` that accepts every URL. -/
def acceptURL : String → Option GoError := fun _ => none

/-- A request with no header set. -/
def plainRequest : Request :=
  { Method := "GET", URL := "https://api.path.net/rules", Header := Header.empty,
    Body := RequestBody.none }

/-- A request on which the caller has set two headers. -/
def jsonRequest : Request :=
  { Method := "GET", URL := "https://api.path.net/rules",
    Header := (Header.empty.Add "Content-Type" "application/json").Add "Accept" "*/*",
    Body := RequestBody.none }

/-- A rule that is not rate limited. -/
def openRule : Rule :=
  { Protocol := "tcp", DstPort := 443, SrcPort := 0, RateLimiterID := none, Whitelist := true,
    Destination := "192.0.2.1/32", Source := "0.0.0.0/0", Priority := false,
    Comment := "allow <https>", ID := "" }

/-- The credentials of a password grant. -/
def passwordGrant : AccessTokenRequest :=
  { GrantType := "password", Username := "user", Password := "secret", Scope := "",
    ClientID := "", ClientSecret := "" }

/-- A `url.Parse` that rejects the URL `://bad` and accepts the others. -/
def rejectBadURL : String → Option GoError :=
  fun url => if url = "://bad" then some (GoError.external "missing protocol scheme") else none

/-- A server that acknowledges DELETE requests with status 202 and answers every other
request with status 405 and an empty body. -/
def deleteOnly : Request → Except GoError Response :=
  fun r =>
    if r.Method = "DELETE" then
      Except.ok { StatusCode := 202, Body := "\x7b\"acknowledged\":true\x7d", ReadErr := none }
    else Except.ok { StatusCode := 405, Body := "", ReadErr := none }

/-- A client of the server `deleteOnly` that holds a token. -/
def deleteOnlyClient : Client :=
  { token := ⟨"abc", "bearer"⟩, httpClient := deleteOnly, baseURL := "https://api.path.net" }

/-! # Properties -/

/-! ## String literals -/

theorem hexVal_hexDigit (u : Bool) (n : Nat) (h : n < 16) : hexVal (hexDigit u n) = some n := by
  interval_cases n <;> cases u <;> decide

theorem hex4_of (n : Nat) (a b c d : Char) (h : Hex4Of n a b c d) : hex4 a b c d = some n := by
  obtain ⟨h1, h2, h3, h4, u1, u2, u3, u4, l1, l2, l3, l4, rfl, rfl, rfl, rfl, rfl⟩ := h
  simp only [hex4, hexVal_hexDigit _ _ l1, hexVal_hexDigit _ _ l2, hexVal_hexDigit _ _ l3,
    hexVal_hexDigit _ _ l4]
  congr 1
  ring

theorem strStep_charLit (ch : Char) (l r : List Char) (h : CharLit ch l) :
    strStep (l ++ r) = StrStep.char ch r := by
  cases h with
  | plain _ h1 h2 h3 =>
    simp only [List.singleton_append, strStep, if_neg h1, if_neg h2, if_neg (Nat.not_lt.mpr h3)]
  | quote => rfl
  | backslash => rfl
  | slash => rfl
  | backspace => rfl
  | formFeed => rfl
  | lineFeed => rfl
  | carriageReturn => rfl
  | tab => rfl
  | unicode _ a b c d hx =>
    have hv := ch.valid
    have hs : isSurrogate ch.toNat = false := by
      simp only [isSurrogate, Bool.and_eq_false_imp, decide_eq_true_eq, decide_eq_false_iff_not]
      intro h1
      rcases hv with hv | hv
      · simp only [Char.toNat, UInt32.toNat] at *; omega
      · simp only [Char.toNat, UInt32.toNat] at *; omega
    have h0 : ('\\' : Char) ≠ '"' := by decide
    simp only [List.cons_append, List.nil_append, strStep, if_neg h0, if_true, escapeStep,
      unicodeStep, hex4_of _ _ _ _ _ hx, hs, Bool.false_eq_true, if_false, Char.ofNat_toNat]
  | pair _ a b c d a2 b2 c2 d2 hi lo h1 h2 h3 h4 hc hx hy =>
    have hs : isSurrogate hi = true := by
      simp only [isSurrogate, Bool.and_eq_true, decide_eq_true_eq]; omega
    have hd : decodeSurrogates hi lo = some ch.toNat := by
      have hcond : 0xD800 ≤ hi ∧ hi < 0xDC00 ∧ 0xDC00 ≤ lo ∧ lo < 0xE000 := ⟨h1, h2, h3, h4⟩
      have harith : (hi - 0xD800) * 0x400 + (lo - 0xDC00) + 0x10000 = ch.toNat := by omega
      unfold decodeSurrogates
      rewrite [if_pos hcond]
      exact congrArg some harith
    have h0 : ('\\' : Char) ≠ '"' := by decide
    simp only [List.cons_append, List.nil_append, strStep, if_neg h0, if_true, escapeStep,
      unicodeStep, getu4, and_self, hex4_of _ _ _ _ _ hx, hex4_of _ _ _ _ _ hy, hs, hd,
      Char.ofNat_toNat]

theorem charLit_length (ch : Char) (l : List Char) (h : CharLit ch l) : 1 ≤ l.length := by
  cases h <;> simp

theorem parseStr_strLit (s lit : List Char) (h : StrLit s lit) :
    ∀ (fuel : Nat) (r : List Char), lit.length < fuel →
      parseStr fuel (lit ++ '"' :: r) = some (s, r) := by
  induction h with
  | nil =>
    intro fuel r hf
    obtain ⟨f, rfl⟩ : ∃ f, fuel = f + 1 := ⟨fuel - 1, by simp at hf; omega⟩
    rfl
  | cons c l cs ls hc _ ih =>
    intro fuel r hf
    have hl := charLit_length c l hc
    obtain ⟨f, rfl⟩ : ∃ f, fuel = f + 1 := ⟨fuel - 1, by omega⟩
    rw [List.append_assoc, parseStr, strStep_charLit c l _ hc]
    simp only
    rw [ih f r (by simp only [List.length_append] at hf; omega)]
    rfl

/-! ## White space -/

theorem isSpace_of_ws (c : Char) (h : c = ' ' ∨ c = '\t' ∨ c = '\r' ∨ c = '\n') :
    isSpace c = true := by
  rcases h with rfl | rfl | rfl | rfl <;> rfl

theorem skipWs_append (ws r : List Char) (h : Ws ws) : skipWs (ws ++ r) = skipWs r := by
  induction ws with
  | nil => rfl
  | cons c cs ih =>
    have hc : isSpace c = true := isSpace_of_ws c (h c (List.mem_cons_self c cs))
    have hcs : Ws cs := fun x hx => h x (List.mem_cons_of_mem c hx)
    rw [List.cons_append, skipWs, if_pos hc, ih hcs]

theorem skipWs_cons (c : Char) (r : List Char) (h : isSpace c = false) :
    skipWs (c :: r) = c :: r := by
  simp only [skipWs, h, Bool.false_eq_true, if_false]

theorem skipWs_ws_cons (ws : List Char) (c : Char) (r : List Char) (h : Ws ws)
    (hc : isSpace c = false) : skipWs (ws ++ c :: r) = c :: r := by
  rw [skipWs_append ws _ h, skipWs_cons c r hc]

theorem skipWs_ws (ws : List Char) (h : Ws ws) : skipWs ws = [] := by
  have := skipWs_append ws [] h
  simpa [skipWs] using this

theorem ws_nil : Ws [] := fun _ h => by cases h

/-! ## Numbers -/

theorem takeDigits_append (ds rest : List Char) (h : Digits ds)
    (hr : ∀ c r, rest = c :: r → c.isDigit = false) : takeDigits (ds ++ rest) = (ds, rest) := by
  induction ds with
  | nil =>
    cases rest with
    | nil => rfl
    | cons c r => simp only [List.nil_append, takeDigits, hr c r rfl, Bool.false_eq_true, if_false]
  | cons d ds ih =>
    have hd : d.isDigit = true := h d (List.mem_cons_self d ds)
    have hds : Digits ds := fun x hx => h x (List.mem_cons_of_mem d hx)
    rw [List.cons_append, takeDigits, if_pos hd, ih hds]

theorem delimited_not_digit (rest : List Char) (h : Delimited rest) :
    ∀ c r, rest = c :: r → c.isDigit = false := by
  intro c r e
  rcases h c r e with rfl | rfl | rfl | rfl | rfl | rfl | rfl <;> rfl

theorem isDigit_ne (d c : Char) (hd : d.isDigit = true) (hc : c.isDigit = false) : d ≠ c := by
  rintro rfl
  rw [hd] at hc
  cases hc

theorem parseIntPart_append (ip rest : List Char) (h : IntPart ip)
    (hr : ∀ c r, rest = c :: r → c.isDigit = false) :
    parseIntPart (ip ++ rest) = some (ip, rest) := by
  rcases h with rfl | ⟨d, ds, rfl, hd0, hds⟩
  · rfl
  · have hd : d.isDigit = true := hds d (List.mem_cons_self d ds)
    have hds2 : Digits ds := fun x hx => hds x (List.mem_cons_of_mem d hx)
    rw [List.cons_append, parseIntPart, if_neg hd0, if_pos hd, takeDigits_append ds rest hds2 hr]

theorem parseFrac_append (fp rest : List Char) (h : FracPart fp)
    (hr : ∀ c r, rest = c :: r → c.isDigit = false ∧ c ≠ '.') :
    parseFrac (fp ++ rest) = some (fp, rest) := by
  rcases h with rfl | ⟨d, ds, rfl, hds⟩
  · cases rest with
    | nil => rfl
    | cons c r => rw [List.nil_append, parseFrac, if_neg (hr c r rfl).2]
  · rw [List.cons_append, parseFrac, if_pos rfl,
      takeDigits_append (d :: ds) rest hds (fun c r e => (hr c r e).1)]

theorem parseExp_append (ep rest : List Char) (h : ExpPart ep)
    (hr : ∀ c r, rest = c :: r → c.isDigit = false ∧ c ≠ 'e' ∧ c ≠ 'E') :
    parseExp (ep ++ rest) = some (ep, rest) := by
  rcases h with rfl | ⟨e, sg, d, ds, rfl, he, hsg, hds⟩
  · cases rest with
    | nil => rfl
    | cons c r =>
      have := hr c r rfl
      rw [List.nil_append, parseExp, if_neg (by simp [this.2.1, this.2.2])]
  · have hd : d.isDigit = true := hds d (List.mem_cons_self d ds)
    have hsign : takeSign ['+', '-'] (sg ++ (d :: (ds ++ rest))) = (sg, d :: (ds ++ rest)) := by
      rcases hsg with rfl | rfl | rfl
      · have h1 : d ≠ '+' := isDigit_ne d '+' hd rfl
        have h2 : d ≠ '-' := isDigit_ne d '-' hd rfl
        simp [takeSign, h1, h2]
      · rfl
      · rfl
    have htd := takeDigits_append (d :: ds) rest hds (fun c r e => (hr c r e).1)
    simp only [List.cons_append, List.append_assoc] at htd ⊢
    rw [parseExp, if_pos he, hsign]
    simp only [htd, List.cons_append]

theorem delimited_head (rest : List Char) (h : Delimited rest) :
    ∀ c r, rest = c :: r → c.isDigit = false ∧ c ≠ '.' ∧ c ≠ 'e' ∧ c ≠ 'E' := by
  intro c r e
  rcases h c r e with rfl | rfl | rfl | rfl | rfl | rfl | rfl <;> decide

theorem intPart_head (ip : List Char) (h : IntPart ip) :
    ∃ d ds, ip = d :: ds ∧ d.isDigit = true := by
  rcases h with rfl | ⟨d, ds, rfl, _, hds⟩
  · exact ⟨'0', [], rfl, rfl⟩
  · exact ⟨d, ds, rfl, hds d (List.mem_cons_self d ds)⟩

theorem fracPart_head (fp : List Char) (h : FracPart fp) :
    ∀ c r, fp = c :: r → c = '.' := by
  intro c r e
  rcases h with rfl | ⟨d, ds, rfl, _⟩
  · cases e
  · injection e with e1 _
    exact e1.symm

theorem expPart_head (ep : List Char) (h : ExpPart ep) :
    ∀ c r, ep = c :: r → c = 'e' ∨ c = 'E' := by
  intro c r e
  rcases h with rfl | ⟨x, sg, d, ds, rfl, hx, _, _⟩
  · cases e
  · injection e with e1 _
    rw [← e1]; exact hx

theorem parseNumber_append (t rest : List Char) (h : NumLit t) (hr : Delimited rest) :
    parseNumber (t ++ rest) = some (t, rest) := by
  obtain ⟨sg, ip, fp, ep, rfl, hsg, hip, hfp, hep⟩ := h
  have hrest := delimited_head rest hr
  obtain ⟨d, ds, hd, hdig⟩ := intPart_head ip hip
  have hsign : takeSign ['-'] (sg ++ (ip ++ (fp ++ (ep ++ rest)))) = (sg, ip ++ (fp ++ (ep ++ rest))) := by
    subst hd
    rcases hsg with rfl | rfl
    · have h1 : d ≠ '-' := isDigit_ne d '-' hdig rfl
      simp [takeSign, h1]
    · rfl
  -- what follows the exponent, the fraction and the integer part
  have h3 : ∀ c r, rest = c :: r → c.isDigit = false ∧ c ≠ 'e' ∧ c ≠ 'E' :=
    fun c r e => ⟨(hrest c r e).1, (hrest c r e).2.2.1, (hrest c r e).2.2.2⟩
  have h2 : ∀ c r, ep ++ rest = c :: r → c.isDigit = false ∧ c ≠ '.' := by
    intro c r e
    cases ep with
    | nil => exact ⟨(hrest c r e).1, (hrest c r e).2.1⟩
    | cons x xs =>
      injection e with e1 _
      subst e1
      rcases expPart_head _ hep x xs rfl with rfl | rfl <;> decide
  have h1 : ∀ c r, fp ++ (ep ++ rest) = c :: r → c.isDigit = false := by
    intro c r e
    cases fp with
    | nil => exact (h2 c r e).1
    | cons x xs =>
      injection e with e1 _
      subst e1
      rw [fracPart_head _ hfp x xs rfl]
      rfl
  unfold parseNumber
  simp only [List.append_assoc, hsign, parseIntPart_append ip _ hip h1,
    parseFrac_append fp _ hfp h2, parseExp_append ep rest hep h3]

/-! ## Values -/

theorem numLit_head (t : List Char) (h : NumLit t) :
    ∃ c t', t = c :: t' ∧ (c = '-' ∨ c.isDigit = true) := by
  obtain ⟨sg, ip, fp, ep, rfl, hsg, hip, _, _⟩ := h
  obtain ⟨d, ds, rfl, hd⟩ := intPart_head ip hip
  rcases hsg with rfl | rfl
  · exact ⟨d, ds ++ (fp ++ ep), rfl, Or.inr hd⟩
  · exact ⟨'-', d :: ds ++ (fp ++ ep), rfl, Or.inl rfl⟩

theorem valueText_head (n : Nat) (v : JSON) (t : List Char) (h : ValueText n v t) :
    ∃ c t', t = c :: t' ∧ ValueHead v c := by
  cases v with
  | null => cases n <;> exact ⟨'n', _, h, by decide, by decide, rfl⟩
  | bool b =>
    cases b
    · cases n <;> exact ⟨'f', _, h, by decide, by decide, rfl⟩
    · cases n <;> exact ⟨'t', _, h, by decide, by decide, rfl⟩
  | num lit =>
    have h2 : NumLit t := by cases n <;> exact h.2
    obtain ⟨c, t', rfl, hc⟩ := numLit_head t h2
    refine ⟨c, t', rfl, ?_, ?_, hc⟩
    · rcases hc with rfl | hc
      · decide
      · cases hs : isSpace c
        · rfl
        · simp only [isSpace, Bool.or_eq_true, decide_eq_true_eq] at hs
          rcases hs with ((rfl | rfl) | rfl) | rfl <;> cases hc
    · rcases hc with rfl | hc
      · decide
      · rintro rfl; cases hc
  | str s =>
    have h2 : ∃ lit, StrLit s.data lit ∧ t = '"' :: (lit ++ ['"']) := by cases n <;> exact h
    obtain ⟨lit, _, rfl⟩ := h2
    exact ⟨'"', _, rfl, by decide, by decide, rfl⟩
  | arr xs =>
    cases n with
    | zero => exact h.elim
    | succ n =>
      cases xs with
      | nil => obtain ⟨ws, _, rfl⟩ := h; exact ⟨'[', _, rfl, by decide, by decide, rfl⟩
      | cons x xs => obtain ⟨ws, ts, _, _, rfl⟩ := h; exact ⟨'[', _, rfl, by decide, by decide, rfl⟩
  | obj ms =>
    cases n with
    | zero => exact h.elim
    | succ n =>
      cases ms with
      | nil => obtain ⟨ws, _, rfl⟩ := h; exact ⟨'{', _, rfl, by decide, by decide, rfl⟩
      | cons x xs => obtain ⟨ws, ts, _, _, rfl⟩ := h; exact ⟨'{', _, rfl, by decide, by decide, rfl⟩

theorem string_mk_data (s : String) : String.mk s.data = s := rfl

theorem parseScalar_str (s : String) (lit rest : List Char) (h : StrLit s.data lit) :
    parseScalar ('"' :: (lit ++ ('"' :: rest))) = some (JSON.str s, rest) := by
  rw [parseScalar, if_pos rfl, parseStr_strLit s.data lit h _ rest (by simp)]
  rfl

theorem parseScalar_num (lit : String) (rest : List Char) (h : NumLit lit.data)
    (hr : Delimited rest) : parseScalar (lit.data ++ rest) = some (JSON.num lit, rest) := by
  obtain ⟨c, t', ht, hc⟩ := numLit_head lit.data h
  have hp := parseNumber_append lit.data rest h hr
  rw [ht] at hp ⊢
  have h1 : c ≠ '"' := by rcases hc with rfl | hc; decide; rintro rfl; cases hc
  have h2 : c ≠ 't' := by rcases hc with rfl | hc; decide; rintro rfl; cases hc
  have h3 : c ≠ 'f' := by rcases hc with rfl | hc; decide; rintro rfl; cases hc
  have h4 : c ≠ 'n' := by rcases hc with rfl | hc; decide; rintro rfl; cases hc
  rw [List.cons_append] at hp ⊢
  rw [parseScalar, if_neg h1, if_neg h2, if_neg h3, if_neg h4, hp]
  simp only [Option.map_some', ← ht]

/-- Reading a value that is not an array or an object. -/
theorem parseScalar_text (n : Nat) (v : JSON) (t rest : List Char) (h : ValueText n v t)
    (hv : ∀ xs, v ≠ JSON.arr xs) (ho : ∀ ms, v ≠ JSON.obj ms) (hr : Delimited rest) :
    parseScalar (t ++ rest) = some (v, rest) := by
  cases v with
  | null => have h2 : t = ['n', 'u', 'l', 'l'] := by cases n <;> exact h
            subst h2; rfl
  | bool b =>
    cases b
    · have h2 : t = ['f', 'a', 'l', 's', 'e'] := by cases n <;> exact h
      subst h2; rfl
    · have h2 : t = ['t', 'r', 'u', 'e'] := by cases n <;> exact h
      subst h2; rfl
  | num lit =>
    have h2 : t = lit.data ∧ NumLit t := by cases n <;> exact h
    obtain ⟨rfl, h3⟩ := h2
    exact parseScalar_num lit rest h3 hr
  | str s =>
    have h2 : ∃ lit, StrLit s.data lit ∧ t = '"' :: (lit ++ ['"']) := by cases n <;> exact h
    obtain ⟨lit, hl, rfl⟩ := h2
    have := parseScalar_str s lit rest hl
    simpa using this
  | arr xs => exact absurd rfl (hv xs)
  | obj ms => exact absurd rfl (ho ms)

theorem delimited_ws_cons (ws : List Char) (c : Char) (r : List Char) (hws : Ws ws)
    (hc : c = ',' ∨ c = ']' ∨ c = '}') : Delimited (ws ++ c :: r) := by
  intro x xs e
  cases ws with
  | nil =>
    injection e with e1 _
    subst e1
    rcases hc with rfl | rfl | rfl <;> simp
  | cons w ws =>
    injection e with e1 _
    subst e1
    rcases hws w (List.mem_cons_self w ws) with h | h | h | h <;> simp [h]

theorem parseElems_text (pv : List Char → Option (JSON × List Char))
    (VT : JSON → List Char → Prop) (hpv : Reads pv VT) (vs : List JSON) (ts : List Char)
    (h : ElemsText VT vs ts) :
    ∀ (fuel : Nat) (ws rest : List Char), Ws ws → vs.length ≤ fuel →
      parseElems pv fuel (ws ++ (ts ++ rest)) = some (vs, rest) := by
  induction h with
  | last v t ws1 hv hws1 =>
    intro fuel ws rest hws hf
    obtain ⟨f, rfl⟩ : ∃ f, fuel = f + 1 := ⟨fuel - 1, by simp at hf; omega⟩
    have e := hpv v t hv ws (ws1 ++ (']' :: rest)) hws
      (delimited_ws_cons ws1 ']' rest hws1 (Or.inr (Or.inl rfl)))
    simp only [List.append_assoc, List.singleton_append] at e ⊢
    rw [parseElems, e]
    simp only
    rw [skipWs_ws_cons ws1 ']' rest hws1 (by decide)]
    simp
  | more v t ws1 ws2 vs ts hv hws1 hws2 _ ih =>
    intro fuel ws rest hws hf
    obtain ⟨f, rfl⟩ : ∃ f, fuel = f + 1 := ⟨fuel - 1, by simp at hf; omega⟩
    have e := hpv v t hv ws (ws1 ++ (',' :: (ws2 ++ (ts ++ rest)))) hws
      (delimited_ws_cons ws1 ',' _ hws1 (Or.inl rfl))
    simp only [List.append_assoc, List.cons_append] at e ⊢
    rw [parseElems, e]
    simp only
    rw [skipWs_ws_cons ws1 ',' _ hws1 (by decide)]
    simp only [if_true]
    rw [ih f ws2 rest hws2 (by simp at hf; omega)]
    rfl

theorem elemsText_length (VT : JSON → List Char → Prop) (vs : List JSON) (ts : List Char)
    (h : ElemsText VT vs ts) : vs.length ≤ ts.length := by
  induction h with
  | last v t ws1 _ _ => simp; omega
  | more v t ws1 ws2 vs ts _ _ _ _ ih => simp; omega

theorem parseArray_text (pv : List Char → Option (JSON × List Char))
    (VT : JSON → List Char → Prop) (hpv : Reads pv VT)
    (hhead : ∀ v t, VT v t → ∃ c t', t = c :: t' ∧ ValueHead v c)
    (vs : List JSON) (ts ws rest : List Char) (h : ElemsText VT vs ts) (hws : Ws ws) :
    parseArray pv (ws ++ (ts ++ rest)) = some (JSON.arr vs, rest) := by
  have hlen := elemsText_length VT vs ts h
  have hp := parseElems_text pv VT hpv vs ts h (ts ++ rest).length [] rest ws_nil
    (by simp; omega)
  -- the first character of the elements belongs to the first value
  have hfirst : ∃ c t', ts = c :: t' ∧ isSpace c = false ∧ c ≠ ']' := by
    cases h with
    | last v t ws1 hv _ =>
      obtain ⟨c, t', rfl, hc⟩ := hhead v t hv
      exact ⟨c, _, rfl, hc.1, hc.2.1⟩
    | more v t ws1 ws2 vs ts hv _ _ _ =>
      obtain ⟨c, t', rfl, hc⟩ := hhead v t hv
      exact ⟨c, _, rfl, hc.1, hc.2.1⟩
  obtain ⟨c, t', rfl, hc1, hc2⟩ := hfirst
  simp only [List.cons_append, List.nil_append] at hp ⊢
  rw [parseArray, skipWs_ws_cons ws c _ hws hc1]
  simp only [if_neg hc2, hp, Option.map_some']

theorem parseArray_empty (pv : List Char → Option (JSON × List Char)) (ws rest : List Char)
    (hws : Ws ws) : parseArray pv (ws ++ (']' :: rest)) = some (JSON.arr [], rest) := by
  rw [parseArray, skipWs_ws_cons ws ']' _ hws (by decide)]
  simp

theorem parseMember_text (pv : List Char → Option (JSON × List Char))
    (VT : JSON → List Char → Prop) (hpv : Reads pv VT) (m : String × JSON)
    (mt ws rest : List Char) (h : MemberText VT m mt) (hws : Ws ws) (hr : Delimited rest) :
    parseMember pv (ws ++ (mt ++ rest)) = some (m, rest) := by
  obtain ⟨klit, ws1, ws2, t, hk, hws1, hws2, hv, rfl⟩ := h
  have e := hpv m.2 t hv ws2 rest hws2 hr
  simp only [List.cons_append, List.append_assoc]
  rw [parseMember, skipWs_ws_cons ws '"' _ hws (by decide)]
  simp only [if_true]
  rw [parseStr_strLit m.1.data klit hk _ _ (by simp)]
  simp only
  rw [skipWs_ws_cons ws1 ':' _ hws1 (by decide)]
  simp only [if_true, e, Option.map_some']

theorem parseMembers_text (pv : List Char → Option (JSON × List Char))
    (VT : JSON → List Char → Prop) (hpv : Reads pv VT) (ms : List (String × JSON))
    (ts : List Char) (h : MembersText VT ms ts) :
    ∀ (fuel : Nat) (ws rest : List Char), Ws ws → ms.length ≤ fuel →
      parseMembers pv fuel (ws ++ (ts ++ rest)) = some (ms, rest) := by
  induction h with
  | last m mt ws1 hm hws1 =>
    intro fuel ws rest hws hf
    obtain ⟨f, rfl⟩ : ∃ f, fuel = f + 1 := ⟨fuel - 1, by simp at hf; omega⟩
    have e := parseMember_text pv VT hpv m mt ws (ws1 ++ ('}' :: rest)) hm hws
      (delimited_ws_cons ws1 '}' rest hws1 (Or.inr (Or.inr rfl)))
    simp only [List.append_assoc, List.singleton_append] at e ⊢
    rw [parseMembers, e]
    simp only
    rw [skipWs_ws_cons ws1 '}' rest hws1 (by decide)]
    simp
  | more m mt ws1 ws2 ms ts hm hws1 hws2 _ ih =>
    intro fuel ws rest hws hf
    obtain ⟨f, rfl⟩ : ∃ f, fuel = f + 1 := ⟨fuel - 1, by simp at hf; omega⟩
    have e := parseMember_text pv VT hpv m mt ws (ws1 ++ (',' :: (ws2 ++ (ts ++ rest)))) hm hws
      (delimited_ws_cons ws1 ',' _ hws1 (Or.inl rfl))
    simp only [List.append_assoc, List.cons_append] at e ⊢
    rw [parseMembers, e]
    simp only
    rw [skipWs_ws_cons ws1 ',' _ hws1 (by decide)]
    simp only [if_true]
    rw [ih f ws2 rest hws2 (by simp at hf; omega)]
    rfl

theorem membersText_length (VT : JSON → List Char → Prop) (ms : List (String × JSON))
    (ts : List Char) (h : MembersText VT ms ts) : ms.length ≤ ts.length := by
  induction h with
  | last m mt ws1 _ _ => simp; omega
  | more m mt ws1 ws2 ms ts _ _ _ _ ih => simp; omega

theorem parseObject_text (pv : List Char → Option (JSON × List Char))
    (VT : JSON → List Char → Prop) (hpv : Reads pv VT)
    (ms : List (String × JSON)) (ts ws rest : List Char) (h : MembersText VT ms ts)
    (hws : Ws ws) : parseObject pv (ws ++ (ts ++ rest)) = some (JSON.obj ms, rest) := by
  have hlen := membersText_length VT ms ts h
  have hp := parseMembers_text pv VT hpv ms ts h (ts ++ rest).length [] rest ws_nil
    (by simp; omega)
  have hfirst : ∃ t', ts = '"' :: t' := by
    cases h with
    | last m mt ws1 hm _ =>
      obtain ⟨klit, ws1, ws2, t, _, _, _, _, rfl⟩ := hm
      exact ⟨_, rfl⟩
    | more m mt ws1 ws2 ms ts hm _ _ _ =>
      obtain ⟨klit, ws1, ws2, t, _, _, _, _, rfl⟩ := hm
      exact ⟨_, rfl⟩
  obtain ⟨t', rfl⟩ := hfirst
  simp only [List.cons_append, List.nil_append] at hp ⊢
  rw [parseObject, skipWs_ws_cons ws '"' _ hws (by decide)]
  have hq : ('"' : Char) ≠ '}' := by decide
  simp only [if_neg hq, hp, Option.map_some']

theorem parseObject_empty (pv : List Char → Option (JSON × List Char)) (ws rest : List Char)
    (hws : Ws ws) : parseObject pv (ws ++ ('}' :: rest)) = some (JSON.obj [], rest) := by
  rw [parseObject, skipWs_ws_cons ws '}' _ hws (by decide)]
  simp

theorem valueHead_scalar (v : JSON) (c : Char) (h : ValueHead v c)
    (hv : ∀ xs, v ≠ JSON.arr xs) (ho : ∀ ms, v ≠ JSON.obj ms) : c ≠ '[' ∧ c ≠ '{' := by
  obtain ⟨_, _, h3⟩ := h
  cases v with
  | null => subst h3; decide
  | bool b => cases b <;> (subst h3; decide)
  | num lit =>
    rcases h3 with rfl | h3
    · decide
    · constructor <;> (rintro rfl; cases h3)
  | str s => subst h3; decide
  | arr xs => exact absurd rfl (hv xs)
  | obj ms => exact absurd rfl (ho ms)

theorem parseValue_scalar (n : Nat) (v : JSON) (t ws rest : List Char) (h : ValueText n v t)
    (hv : ∀ xs, v ≠ JSON.arr xs) (ho : ∀ ms, v ≠ JSON.obj ms) (hws : Ws ws)
    (hr : Delimited rest) : parseValue n (ws ++ (t ++ rest)) = some (v, rest) := by
  obtain ⟨c, t', rfl, hc⟩ := valueText_head n v _ h
  have hs : parseScalar (c :: t' ++ rest) = some (v, rest) :=
    parseScalar_text n v _ rest h hv ho hr
  obtain ⟨h1, h2⟩ := valueHead_scalar v c hc hv ho
  rw [List.cons_append] at hs ⊢
  cases n with
  | zero =>
    rw [parseValue, skipWs_ws_cons ws c _ hws hc.1]
    simp only [h1, h2, or_self, if_false, hs]
  | succ n =>
    rw [parseValue, skipWs_ws_cons ws c _ hws hc.1]
    simp only [if_neg h1, if_neg h2, hs]

/-- Reading a value: every text of a value nested no deeper than `n` is read back as
that value, whatever white space comes before it. -/
theorem parseValue_text : ∀ n : Nat, Reads (parseValue n) (ValueText n) := by
  intro n
  induction n with
  | zero =>
    intro v t h ws rest hws hr
    cases v with
    | arr xs => exact h.elim
    | obj ms => exact h.elim
    | null => exact parseValue_scalar 0 _ t ws rest h (by simp) (by simp) hws hr
    | bool b => exact parseValue_scalar 0 _ t ws rest h (by simp) (by simp) hws hr
    | num lit => exact parseValue_scalar 0 _ t ws rest h (by simp) (by simp) hws hr
    | str s => exact parseValue_scalar 0 _ t ws rest h (by simp) (by simp) hws hr
  | succ n ih =>
    intro v t h ws rest hws hr
    cases v with
    | null => exact parseValue_scalar _ _ t ws rest h (by simp) (by simp) hws hr
    | bool b => exact parseValue_scalar _ _ t ws rest h (by simp) (by simp) hws hr
    | num lit => exact parseValue_scalar _ _ t ws rest h (by simp) (by simp) hws hr
    | str s => exact parseValue_scalar _ _ t ws rest h (by simp) (by simp) hws hr
    | arr xs =>
      cases xs with
      | nil =>
        obtain ⟨ws1, hws1, rfl⟩ := h
        simp only [List.cons_append, List.append_assoc, List.singleton_append]
        rw [parseValue, skipWs_ws_cons ws '[' _ hws (by decide)]
        simp only [if_true]
        exact parseArray_empty _ ws1 rest hws1
      | cons x xs =>
        obtain ⟨ws1, ts, hws1, hts, rfl⟩ := h
        simp only [List.cons_append, List.append_assoc]
        rw [parseValue, skipWs_ws_cons ws '[' _ hws (by decide)]
        simp only [if_true]
        exact parseArray_text _ _ ih (valueText_head n) _ ts ws1 rest hts hws1
    | obj ms =>
      have hb : ('{' : Char) ≠ '[' := by decide
      cases ms with
      | nil =>
        obtain ⟨ws1, hws1, rfl⟩ := h
        simp only [List.cons_append, List.append_assoc, List.singleton_append]
        rw [parseValue, skipWs_ws_cons ws '{' _ hws (by decide)]
        simp only [if_neg hb, if_true]
        exact parseObject_empty _ ws1 rest hws1
      | cons x xs =>
        obtain ⟨ws1, ts, hws1, hts, rfl⟩ := h
        simp only [List.cons_append, List.append_assoc]
        rw [parseValue, skipWs_ws_cons ws '{' _ hws (by decide)]
        simp only [if_neg hb, if_true]
        exact parseObject_text _ _ ih _ ts ws1 rest hts hws1

/-- Every JSON text of a value is read as that value. -/
theorem parseJSON_text (v : JSON) (text : String) (h : JSONText v text) :
    parseJSON text = some v := by
  obtain ⟨ws1, t, ws2, hws1, hws2, hv, ht⟩ := h
  have hd : Delimited ws2 := by
    intro c r e
    subst e
    rcases hws2 c (List.mem_cons_self c r) with h | h | h | h <;> simp [h]
  have e := parseValue_text maxNestingDepth v t hv ws1 ws2 hws1 hd
  unfold parseJSON
  rw [ht, e]
  simp only [skipWs_ws ws2 hws2, if_true]

/-! ## The encoder writes JSON texts -/

theorem hex_eq_hexDigit (n : Nat) (h : n < 16) : hex n = hexDigit false n := by
  interval_cases n <;> rfl

theorem charLit_encodeChar (c : Char) : CharLit c (encodeChar c) := by
  unfold encodeChar
  split
  · next hlt =>
    split
    · next hs =>
      simp only [htmlSafe, Bool.and_eq_true, decide_eq_true_eq, Bool.not_eq_true',
        Bool.or_eq_false_iff, decide_eq_false_iff_not] at hs
      exact CharLit.plain c hs.2.1.1.1.1 hs.2.1.1.1.2 hs.1.1
    · split
      · next _ h => rcases h with rfl | rfl; exact CharLit.backslash; exact CharLit.quote
      · split
        · next h => subst h; exact CharLit.lineFeed
        · split
          · next h => subst h; exact CharLit.carriageReturn
          · split
            · next h => subst h; exact CharLit.tab
            · refine CharLit.unicode c _ _ _ _ ⟨0, 0, c.toNat / 16, c.toNat % 16, false, false,
                false, false, by omega, by omega, by omega, by omega, rfl, rfl,
                hex_eq_hexDigit _ (by omega), hex_eq_hexDigit _ (by omega), by omega⟩
  · next hge =>
    split
    · next h =>
      refine CharLit.unicode c _ _ _ _ ⟨2, 0, 2, c.toNat % 16, false, false,
        false, false, by omega, by omega, by omega, by omega, rfl, rfl, rfl,
        hex_eq_hexDigit _ (by omega), by omega⟩
    · refine CharLit.plain c ?_ ?_ (by omega)
      · rintro rfl; exact hge (by decide)
      · rintro rfl; exact hge (by decide)

theorem strLit_encodeChars (cs : List Char) : StrLit cs (encodeChars cs) := by
  induction cs with
  | nil => exact StrLit.nil
  | cons c cs ih => exact StrLit.cons c _ cs _ (charLit_encodeChar c) ih

theorem elemsText_join (VT : JSON → List Char → Prop) (f : JSON → List Char) :
    ∀ (y : JSON) (ys : List JSON), (∀ x ∈ y :: ys, VT x (f x)) →
      ElemsText VT (y :: ys) (joinTexts ']' ((y :: ys).map f)) := by
  intro y ys
  induction ys generalizing y with
  | nil =>
    intro h
    have := ElemsText.last y (f y) [] (h y (List.mem_cons_self y [])) ws_nil
    simpa [joinTexts] using this
  | cons z zs ih =>
    intro h
    have hz := ih z (fun x hx => h x (List.mem_cons_of_mem y hx))
    have := ElemsText.more y (f y) [] [] (z :: zs) _ (h y (List.mem_cons_self y _)) ws_nil ws_nil hz
    simpa [joinTexts] using this

theorem memberText_encode (VT : JSON → List Char → Prop) (m : String × JSON) (t : List Char)
    (h : VT m.2 t) : MemberText VT m (encodeString m.1 ++ ':' :: t) :=
  ⟨encodeChars m.1.data, [], [], t, strLit_encodeChars _, ws_nil, ws_nil, h, by
    simp [encodeString]⟩

theorem membersText_join (VT : JSON → List Char → Prop) (f : JSON → List Char) :
    ∀ (y : String × JSON) (ys : List (String × JSON)), (∀ x ∈ y :: ys, VT x.2 (f x.2)) →
      MembersText VT (y :: ys)
        (joinTexts '}' ((y :: ys).map fun m => encodeString m.1 ++ ':' :: f m.2)) := by
  intro y ys
  induction ys generalizing y with
  | nil =>
    intro h
    have := MembersText.last y _ [] (memberText_encode VT y _ (h y (List.mem_cons_self y []))) ws_nil
    simpa [joinTexts] using this
  | cons z zs ih =>
    intro h
    have hz := ih z (fun x hx => h x (List.mem_cons_of_mem y hx))
    have := MembersText.more y _ [] [] (z :: zs) _
      (memberText_encode VT y _ (h y (List.mem_cons_self y _))) ws_nil ws_nil hz
    simpa [joinTexts] using this

/-- The text the encoder writes for a value is a JSON text of that value. -/
theorem valueText_render : ∀ (n : Nat) (v : JSON), Writable n v → ValueText n v (render n v) := by
  intro n
  induction n with
  | zero =>
    intro v h
    cases v with
    | null => rfl
    | bool b => cases b <;> rfl
    | num lit => exact ⟨rfl, h⟩
    | str s => exact ⟨encodeChars s.data, strLit_encodeChars _, rfl⟩
    | arr xs => exact h.elim
    | obj ms => exact h.elim
  | succ n ih =>
    intro v h
    cases v with
    | null => rfl
    | bool b => cases b <;> rfl
    | num lit => exact ⟨rfl, h⟩
    | str s => exact ⟨encodeChars s.data, strLit_encodeChars _, rfl⟩
    | arr xs =>
      cases xs with
      | nil => exact ⟨[], ws_nil, rfl⟩
      | cons x xs =>
        exact ⟨[], _, ws_nil, elemsText_join (ValueText n) (render n) x xs
          (fun y hy => ih y (h y hy)), rfl⟩
    | obj ms =>
      cases ms with
      | nil => exact ⟨[], ws_nil, rfl⟩
      | cons m ms =>
        exact ⟨[], _, ws_nil, membersText_join (ValueText n) (render n) m ms
          (fun y hy => ih y.2 (h y hy)), rfl⟩

/-- The compact text of a value is a JSON text of it. -/
theorem jsonText_compact (v : JSON) (h : Writable maxNestingDepth v) : JSONText v v.compact :=
  ⟨[], render maxNestingDepth v, [], ws_nil, ws_nil, valueText_render _ v h, by
    simp [JSON.compact]⟩

/-- Reading back what the encoder wrote gives the value written. -/
theorem parseJSON_compact (v : JSON) (h : Writable maxNestingDepth v) :
    parseJSON v.compact = some v :=
  parseJSON_text v _ (jsonText_compact v h)

/-! ## Numbers in decimal -/

theorem digitChar_isDigit (n : Nat) (h : n < 10) : (Nat.digitChar n).isDigit = true := by
  interval_cases n <;> rfl

theorem digitChar_ne_zero (n : Nat) (h : n < 10) (h0 : 0 < n) : Nat.digitChar n ≠ '0' := by
  interval_cases n <;> decide

theorem toDigitsCore_decimal (n : Nat) :
    ∃ d ds, (∀ fuel acc, n < fuel → Nat.toDigitsCore 10 fuel n acc = d :: ds ++ acc) ∧
      Digits (d :: ds) ∧ (0 < n → d ≠ '0') ∧ (n = 0 → d :: ds = ['0']) := by
  induction n using Nat.strong_induction_on with
  | _ n ih =>
    by_cases hn : n < 10
    · refine ⟨Nat.digitChar n, [], ?_, ?_, ?_, ?_⟩
      · intro fuel acc hf
        obtain ⟨f, rfl⟩ : ∃ f, fuel = f + 1 := ⟨fuel - 1, by omega⟩
        have h1 : n / 10 = 0 := by omega
        have h2 : n % 10 = n := by omega
        simp only [Nat.toDigitsCore, h1, h2, if_true, List.singleton_append]
      · intro c hc
        simp only [List.mem_singleton] at hc
        subst hc
        exact digitChar_isDigit n hn
      · intro h0
        exact digitChar_ne_zero n hn h0
      · rintro rfl; rfl
    · obtain ⟨d, ds, hcore, hdig, hhead, _⟩ := ih (n / 10) (by omega)
      refine ⟨d, ds ++ [Nat.digitChar (n % 10)], ?_, ?_, ?_, ?_⟩
      · intro fuel acc hf
        obtain ⟨f, rfl⟩ : ∃ f, fuel = f + 1 := ⟨fuel - 1, by omega⟩
        have h1 : n / 10 ≠ 0 := by omega
        simp only [Nat.toDigitsCore, if_neg h1]
        rw [hcore f _ (by omega)]
        simp
      · intro c hc
        simp only [List.mem_cons, List.mem_append, List.mem_singleton, List.not_mem_nil,
          or_false] at hc
        rcases hc with rfl | hc | rfl
        · exact hdig _ (List.mem_cons_self _ _)
        · exact hdig _ (List.mem_cons_of_mem _ hc)
        · exact digitChar_isDigit _ (by omega)
      · intro _
        exact hhead (by omega)
      · intro h0; omega

theorem intPart_repr (n : Nat) : IntPart (Nat.repr n).data := by
  obtain ⟨d, ds, hcore, hdig, hhead, hzero⟩ := toDigitsCore_decimal n
  have hdata : (Nat.repr n).data = d :: ds := by
    have := hcore (n + 1) [] (by omega)
    simpa [Nat.repr, Nat.toDigits, List.asString] using this
  rw [hdata]
  by_cases h0 : n = 0
  · exact Or.inl (hzero h0)
  · exact Or.inr ⟨d, ds, rfl, hhead (by omega), hdig⟩

theorem numLit_fmtInt (n : Int) : NumLit (fmtInt n).data := by
  cases n with
  | ofNat k =>
    exact ⟨[], (Nat.repr k).data, [], [], by simp [fmtInt], Or.inl rfl, intPart_repr k,
      Or.inl rfl, Or.inl rfl⟩
  | negSucc k =>
    exact ⟨['-'], (Nat.repr (k + 1)).data, [], [], by simp [fmtInt], Or.inr rfl,
      intPart_repr (k + 1), Or.inl rfl, Or.inl rfl⟩

/-! ## Errors of `json.Unmarshal` -/

theorem fromJSON_none : FromJSON none := fun _ h => by cases h

theorem fromJSON_saveError (a b : Option GoError) (ha : FromJSON a) (hb : FromJSON b) :
    FromJSON (saveError a b) := by
  cases a with
  | none => exact hb
  | some e => exact ha

theorem fromJSON_decodeString (j : JSON) (old : String) : FromJSON (decodeString j old).2 := by
  cases j <;> intro e h <;> simp only [decodeString] at h <;> first | (injection h with h; subst h; rfl) | cases h

theorem fromJSON_decodeBool (j : JSON) (old : Bool) : FromJSON (decodeBool j old).2 := by
  cases j <;> intro e h <;> simp only [decodeBool] at h <;> first | (injection h with h; subst h; rfl) | cases h

theorem fromJSON_decodeElems {α : Type} (dec : JSON → α → α × Option GoError) (zero : α)
    (hdec : ∀ j old, FromJSON (dec j old).2) (xs : List JSON) :
    ∀ cells, FromJSON (decodeElems dec zero xs cells).2 := by
  induction xs with
  | nil => intro cells; exact fromJSON_none
  | cons x xs ih =>
    intro cells
    exact fromJSON_saveError _ _ (hdec _ _) (ih _)

theorem fromJSON_decodeSlice {α : Type} (dec : JSON → α → α × Option GoError) (zero : α)
    (goType : String) (hdec : ∀ j old, FromJSON (dec j old).2) (j : JSON) (old : GoSlice α) :
    FromJSON (decodeSlice dec zero goType j old).2 := by
  cases j with
  | arr xs =>
    cases xs with
    | nil => exact fromJSON_none
    | cons x xs => exact fromJSON_decodeElems dec zero hdec _ _
  | null => exact fromJSON_none
  | bool b => intro e h; simp only [decodeSlice] at h; injection h with h; subst h; rfl
  | num l => intro e h; simp only [decodeSlice] at h; injection h with h; subst h; rfl
  | str s => intro e h; simp only [decodeSlice] at h; injection h with h; subst h; rfl
  | obj ms => intro e h; simp only [decodeSlice] at h; injection h with h; subst h; rfl

theorem fromJSON_foldl {α : Type} (step : α × Option GoError → String × JSON → α × Option GoError)
    (hstep : ∀ acc m, FromJSON acc.2 → FromJSON (step acc m).2) (ms : List (String × JSON)) :
    ∀ acc, FromJSON acc.2 → FromJSON (ms.foldl step acc).2 := by
  induction ms with
  | nil => intro acc h; exact h
  | cons m ms ih => intro acc h; exact ih _ (hstep acc m h)

theorem fromJSON_decodeError (j : JSON) (old : Error) : FromJSON (decodeError j old).2 := by
  cases j with
  | obj ms =>
    refine fromJSON_foldl decodeErrorMember ?_ ms _ fromJSON_none
    intro acc m h
    unfold decodeErrorMember
    split
    · exact fromJSON_saveError _ _ h (fromJSON_decodeString _ _)
    · exact h
  | null => exact fromJSON_none
  | bool b => intro e h; simp only [decodeError] at h; injection h with h; subst h; rfl
  | num l => intro e h; simp only [decodeError] at h; injection h with h; subst h; rfl
  | str s => intro e h; simp only [decodeError] at h; injection h with h; subst h; rfl
  | arr xs => intro e h; simp only [decodeError] at h; injection h with h; subst h; rfl

theorem fromJSON_decodeItem (j : JSON) (old : ValidationErrorItem) :
    FromJSON (decodeItem j old).2 := by
  cases j with
  | obj ms =>
    refine fromJSON_foldl decodeItemMember ?_ ms _ fromJSON_none
    intro acc m h
    unfold decodeItemMember
    split
    · exact fromJSON_saveError _ _ h
        (fromJSON_decodeSlice _ _ _ (fun j old => fromJSON_decodeString j old) _ _)
    · exact fromJSON_saveError _ _ h (fromJSON_decodeString _ _)
    · exact fromJSON_saveError _ _ h (fromJSON_decodeString _ _)
    · exact h
  | null => exact fromJSON_none
  | bool b => intro e h; simp only [decodeItem] at h; injection h with h; subst h; rfl
  | num l => intro e h; simp only [decodeItem] at h; injection h with h; subst h; rfl
  | str s => intro e h; simp only [decodeItem] at h; injection h with h; subst h; rfl
  | arr xs => intro e h; simp only [decodeItem] at h; injection h with h; subst h; rfl

theorem fromJSON_decodeValidationError (j : JSON) (old : ValidationError) :
    FromJSON (decodeValidationError j old).2 := by
  cases j with
  | obj ms =>
    refine fromJSON_foldl decodeDetailMember ?_ ms _ fromJSON_none
    intro acc m h
    unfold decodeDetailMember
    split
    · exact fromJSON_saveError _ _ h
        (fromJSON_decodeSlice _ _ _ (fun j old => fromJSON_decodeItem j old) _ _)
    · exact h
  | null => exact fromJSON_none
  | bool b => intro e h; simp only [decodeValidationError] at h; injection h with h; subst h; rfl
  | num l => intro e h; simp only [decodeValidationError] at h; injection h with h; subst h; rfl
  | str s => intro e h; simp only [decodeValidationError] at h; injection h with h; subst h; rfl
  | arr xs => intro e h; simp only [decodeValidationError] at h; injection h with h; subst h; rfl

theorem fromJSON_Unmarshal {α : Type} (dec : JSON → α → α × Option GoError)
    (hdec : ∀ j old, FromJSON (dec j old).2) (data : String) (v : α) :
    FromJSON (Unmarshal dec data v).2 := by
  unfold Unmarshal
  cases parseJSON data with
  | none => intro e h; injection h with h; subst h; rfl
  | some j => exact hdec j v

/-! ## The request dispatcher -/

theorem handleRequest_ok (client : Client) (req : Request) (resp : Response)
    (hdo : client.httpClient (authorize client req) = Except.ok resp)
    (hread : resp.ReadErr = none) :
    handleRequest client req =
      { sent := authorize client req, body := resp.Body,
        err := classify resp.StatusCode resp.Body } := by
  unfold handleRequest
  rw [hdo]
  simp only [hread]

theorem classify_success (statusCode : Int) (body : String)
    (hcode : statusCode = 200 ∨ statusCode = 202) : classify statusCode body = none := by
  unfold classify
  rw [if_pos (Or.symm hcode)]

/-- C1: for a response whose body was read, a status code 200 or 202 makes `handleRequest`
return the body of the response unchanged, whatever it contains, and no error. -/
theorem handleRequest_success (client : Client) (req : Request) (resp : Response)
    (hdo : client.httpClient (authorize client req) = Except.ok resp)
    (hread : resp.ReadErr = none)
    (hcode : resp.StatusCode = 200 ∨ resp.StatusCode = 202) :
    (handleRequest client req).body = resp.Body ∧ (handleRequest client req).err = none := by
  rw [handleRequest_ok client req resp hdo hread]
  exact ⟨rfl, classify_success resp.StatusCode resp.Body hcode⟩

theorem handleRequest_success_witness :
    ((handleRequest (clientOf ⟨"abc", "bearer"⟩ 202 "<html>not JSON") plainRequest).body
        = "<html>not JSON" ∧
      (handleRequest (clientOf ⟨"abc", "bearer"⟩ 202 "<html>not JSON") plainRequest).err = none) ∧
    ((handleRequest (clientOf ⟨"", ""⟩ 200 "") plainRequest).body = "" ∧
      (handleRequest (clientOf ⟨"", ""⟩ 200 "") plainRequest).err = none) :=
  ⟨handleRequest_success (clientOf ⟨"abc", "bearer"⟩ 202 "<html>not JSON") plainRequest
      ⟨202, "<html>not JSON", none⟩ rfl rfl (Or.inr rfl),
    handleRequest_success (clientOf ⟨"", ""⟩ 200 "") plainRequest ⟨200, "", none⟩ rfl rfl
      (Or.inl rfl)⟩

/-- C2: for a response whose body was read, a status code other than 200, 202, 401 and
422 makes `handleRequest` return an error made by `errors.New` whose message is
"Received unexpected status code: " followed by the status code in decimal. -/
theorem handleRequest_unexpected_status (client : Client) (req : Request) (resp : Response)
    (hdo : client.httpClient (authorize client req) = Except.ok resp)
    (hread : resp.ReadErr = none)
    (h200 : resp.StatusCode ≠ 200) (h202 : resp.StatusCode ≠ 202)
    (h401 : resp.StatusCode ≠ 401) (h422 : resp.StatusCode ≠ 422) :
    (handleRequest client req).err =
      some (errorsNew ("Received unexpected status code: " ++ fmtInt resp.StatusCode)) ∧
    ((handleRequest client req).err.bind GoError.message?) =
      some ("Received unexpected status code: " ++ fmtInt resp.StatusCode) := by
  rw [handleRequest_ok client req resp hdo hread]
  have : classify resp.StatusCode resp.Body =
      some (errorsNew ("Received unexpected status code: " ++ fmtInt resp.StatusCode)) := by
    unfold classify
    rw [if_neg (by rintro (h | h); exact h202 h; exact h200 h), if_neg h401, if_neg h422]
  show classify resp.StatusCode resp.Body = _ ∧ (classify resp.StatusCode resp.Body).bind _ = _
  rw [this]
  exact ⟨rfl, rfl⟩

theorem handleRequest_unexpected_status_witness :
    (handleRequest (clientOf ⟨"abc", "bearer"⟩ 500 "\x7b\"detail\":\"x\"\x7d") plainRequest).err =
      some (errorsNew "Received unexpected status code: 500") ∧
    (handleRequest (clientOf ⟨"abc", "bearer"⟩ 204 "") plainRequest).err =
      some (errorsNew "Received unexpected status code: 204") :=
  ⟨(handleRequest_unexpected_status (clientOf ⟨"abc", "bearer"⟩ 500 "\x7b\"detail\":\"x\"\x7d")
      plainRequest ⟨500, "\x7b\"detail\":\"x\"\x7d", none⟩ rfl rfl (by decide) (by decide) (by decide)
      (by decide)).1,
    (handleRequest_unexpected_status (clientOf ⟨"abc", "bearer"⟩ 204 "")
      plainRequest ⟨204, "", none⟩ rfl rfl (by decide) (by decide) (by decide) (by decide)).1⟩

/-! ## Validation errors -/

theorem decodeElems_strings (xs : List String) :
    ∀ cells, decodeElems decodeString "" (xs.map JSON.str) cells = (xs, none) := by
  induction xs with
  | nil => intro cells; rfl
  | cons x xs ih =>
    intro cells
    simp only [List.map_cons, decodeElems, ih, decodeString, saveError]

theorem decodeSlice_strings (xs : List String) (old : GoSlice String) :
    decodeSlice decodeString "" "[]string" (JSON.arr (xs.map JSON.str)) old =
      (⟨xs, if xs = [] then [] else (old.elems ++ old.spare).drop xs.length⟩, none) := by
  cases xs with
  | nil => simp [decodeSlice]
  | cons x xs =>
    have h := decodeElems_strings (x :: xs) (old.elems ++ old.spare)
    simp only [List.map_cons] at h
    simp only [List.map_cons, decodeSlice, h, List.length_cons, List.length_map]
    simp

theorem decodeItemMember_loc (acc : ValidationErrorItem × Option GoError) (xs : List String) :
    decodeItemMember acc ("loc", JSON.arr (xs.map JSON.str)) =
      ({ acc.1 with Loc := ⟨xs, if xs = [] then []
          else (acc.1.Loc.elems ++ acc.1.Loc.spare).drop xs.length⟩ },
        saveError acc.2 none) := by
  have h : matchField ["loc", "msg", "type"] "loc" = some "loc" := by decide
  simp only [decodeItemMember, h, decodeSlice_strings]

theorem decodeItemMember_msg (acc : ValidationErrorItem × Option GoError) (s : String) :
    decodeItemMember acc ("msg", JSON.str s) = ({ acc.1 with Msg := s }, saveError acc.2 none) := by
  have h : matchField ["loc", "msg", "type"] "msg" = some "msg" := by decide
  simp only [decodeItemMember, h, decodeString]

theorem decodeItemMember_type (acc : ValidationErrorItem × Option GoError) (s : String) :
    decodeItemMember acc ("type", JSON.str s) = ({ acc.1 with Type_ := s }, saveError acc.2 none) := by
  have h : matchField ["loc", "msg", "type"] "type" = some "type" := by decide
  simp only [decodeItemMember, h, decodeString]

theorem saveError_none (e : Option GoError) : saveError e none = e := by
  cases e <;> rfl

theorem decodeItemMember_comm (entry : List String × String × String) :
    ∀ x ∈ entryMembers entry, ∀ y ∈ entryMembers entry, ∀ z,
      decodeItemMember (decodeItemMember z x) y = decodeItemMember (decodeItemMember z y) x := by
  intro x hx y hy z
  simp only [entryMembers, List.mem_cons, List.mem_singleton, List.not_mem_nil, or_false] at hx hy
  rcases hx with rfl | rfl | rfl <;> rcases hy with rfl | rfl | rfl <;>
    simp only [decodeItemMember_loc, decodeItemMember_msg, decodeItemMember_type, saveError_none]

theorem decodeItem_entry (j : JSON) (entry : List String × String × String)
    (h : IsEntry j entry) : decodeItem j zeroItem = (entryItem entry, none) := by
  obtain ⟨ms, rfl, hp⟩ := h
  have hc := decodeItemMember_comm entry
  have := List.Perm.foldl_eq' hp.symm hc (zeroItem, none)
  simp only [decodeItem, ← this]
  simp only [entryMembers, List.foldl_cons, List.foldl_nil, decodeItemMember_loc,
    decodeItemMember_msg, decodeItemMember_type, saveError_none]
  simp [zeroItem, GoSlice.nil, GoSlice.ofList, entryItem]

theorem decodeElems_entries (js : List JSON) (entries : List (List String × String × String))
    (h : List.Forall₂ IsEntry js entries) :
    decodeElems decodeItem zeroItem js [] = (entries.map entryItem, none) := by
  induction h with
  | nil => rfl
  | cons hj _ ih =>
    simp only [decodeElems, List.headD_nil, List.tail_nil, ih, decodeItem_entry _ _ hj,
      List.map_cons, saveError]

theorem decodeDetail_entries (js : List JSON) (entries : List (List String × String × String))
    (h : List.Forall₂ IsEntry js entries) :
    [("detail", JSON.arr js)].foldl decodeDetailMember (GoSlice.nil, none) =
      (GoSlice.ofList (entries.map entryItem), none) := by
  have hm : matchField ["detail"] "detail" = some "detail" := by decide
  simp only [List.foldl_cons, List.foldl_nil, decodeDetailMember, hm]
  cases h with
  | nil => rfl
  | cons hj hjs =>
    have := decodeElems_entries _ _ (List.Forall₂.cons hj hjs)
    simp only [GoSlice.nil, List.append_nil] at this ⊢
    simp only [decodeSlice, List.append_nil, this, List.drop_nil, saveError, GoSlice.ofList]

/-! ## Classified errors -/

theorem decodeError_detail (msg : String) :
    decodeError (JSON.obj [("detail", JSON.str msg)]) ⟨""⟩ = (⟨msg⟩, none) := rfl

/-- C3: for every string `msg`, a response with status 401 whose body is a JSON text of
the object with the one member "detail" of value `msg` is decoded into the `Error` with
that `Detail`, and `handleRequest` returns the error made by `errors.New`, whose message
is `msg`. -/
theorem handleRequest_unauthorized (client : Client) (req : Request) (resp : Response)
    (msg : String)
    (hdo : client.httpClient (authorize client req) = Except.ok resp)
    (hread : resp.ReadErr = none)
    (hcode : resp.StatusCode = 401)
    (hbody : JSONText (JSON.obj [("detail", JSON.str msg)]) resp.Body) :
    Unmarshal decodeError resp.Body ⟨""⟩ = (⟨msg⟩, none) ∧
    (handleRequest client req).err = some (errorsNew msg) ∧
    (handleRequest client req).err.bind GoError.message? = some msg := by
  have hu : Unmarshal decodeError resp.Body ⟨""⟩ = (⟨msg⟩, none) := by
    unfold Unmarshal
    rw [parseJSON_text _ _ hbody]
    exact decodeError_detail msg
  have hc : classify resp.StatusCode resp.Body = some (errorsNew msg) := by
    unfold classify
    rw [hcode, if_neg (by decide), if_pos rfl, hu]
  rw [handleRequest_ok client req resp hdo hread]
  show _ ∧ classify resp.StatusCode resp.Body = _ ∧ (classify resp.StatusCode resp.Body).bind _ = _
  rw [hc]
  exact ⟨hu, rfl, rfl⟩

theorem handleRequest_unauthorized_witness :
    (handleRequest (clientOf ⟨"abc", "bearer"⟩ 401 "\x7b\"detail\":\"Not authenticated\"\x7d")
      plainRequest).err = some (errorsNew "Not authenticated") ∧
    (handleRequest (clientOf ⟨"abc", "bearer"⟩ 401 " \x7b\"detail\" : \"say \\\"hi\\\" \\u00e9\\n\"\x7d\n")
      plainRequest).err = some (errorsNew "say \"hi\" é\n") :=
  ⟨(handleRequest_unauthorized (clientOf ⟨"abc", "bearer"⟩ 401 "\x7b\"detail\":\"Not authenticated\"\x7d")
      plainRequest ⟨401, "\x7b\"detail\":\"Not authenticated\"\x7d", none⟩ "Not authenticated" rfl rfl rfl
      (jsonText_compact (JSON.obj [("detail", JSON.str "Not authenticated")])
        (by intro m hm; simp only [List.mem_singleton] at hm; subst hm; exact True.intro))).2.1,
    by decide⟩

theorem string_join_foldl {α : Type} (f : α → String) (xs : List α) :
    xs.foldl (fun acc x => acc ++ f x) "" = String.join (xs.map f) := by
  unfold String.join
  rw [List.foldl_map]

theorem classify_validation (body : String) (apiErrors : ValidationError)
    (hparse : Unmarshal decodeValidationError body ⟨GoSlice.nil⟩ = (apiErrors, none)) :
    classify 422 body =
      some (errorsNew (String.join (apiErrors.Detail.elems.map fun entry =>
        "\n- Message: " ++ entry.Msg ++ "\n  Type: " ++ entry.Type_ ++ "\n  Location: " ++
          ("[" ++ " ".intercalate entry.Loc.elems ++ "]")))) := by
  unfold classify
  rw [if_neg (by decide), if_neg (by decide), if_pos rfl, hparse]
  simp only
  rw [string_join_foldl]
  rfl

/-- C4: for a response with status 422 whose body `json.Unmarshal` decodes without error
into a validation error, `handleRequest` returns an error made by `errors.New` whose message
is, for the entries in their order, the concatenation of one block per entry: a line feed,
"- Message: " and the message, a line feed, "  Type: " and the type, a line feed,
"  Location: " and the location path as its elements separated by single spaces in square
brackets. In particular, when the body is a JSON text of an object whose member "detail"
is an array of entries, the blocks are those of the entries of the body, in their order. -/
theorem handleRequest_validation_message (client : Client) (req : Request) (resp : Response)
    (hdo : client.httpClient (authorize client req) = Except.ok resp)
    (hread : resp.ReadErr = none)
    (hcode : resp.StatusCode = 422) :
    (∀ apiErrors : ValidationError,
      Unmarshal decodeValidationError resp.Body ⟨GoSlice.nil⟩ = (apiErrors, none) →
      (handleRequest client req).err =
        some (errorsNew (String.join (apiErrors.Detail.elems.map fun entry =>
          "\n- Message: " ++ entry.Msg ++ "\n  Type: " ++ entry.Type_ ++ "\n  Location: " ++
            ("[" ++ " ".intercalate entry.Loc.elems ++ "]"))))) ∧
    (∀ (entries : List (List String × String × String)) (js : List JSON),
      List.Forall₂ IsEntry js entries →
      JSONText (JSON.obj [("detail", JSON.arr js)]) resp.Body →
      (handleRequest client req).err =
        some (errorsNew (String.join (entries.map fun entry =>
          "\n- Message: " ++ entry.2.1 ++ "\n  Type: " ++ entry.2.2 ++ "\n  Location: " ++
            ("[" ++ " ".intercalate entry.1 ++ "]"))))) := by
  rw [handleRequest_ok client req resp hdo hread]
  show (∀ apiErrors : ValidationError, _ → classify resp.StatusCode resp.Body = _) ∧
    (∀ (entries : List (List String × String × String)) (js : List JSON), _ → _ →
      classify resp.StatusCode resp.Body = _)
  rw [hcode]
  constructor
  · intro apiErrors hparse
    exact classify_validation resp.Body apiErrors hparse
  · intro entries js hjs hbody
    have hu : Unmarshal decodeValidationError resp.Body ⟨GoSlice.nil⟩ =
        (⟨GoSlice.ofList (entries.map entryItem)⟩, none) := by
      unfold Unmarshal
      rw [parseJSON_text _ _ hbody]
      simp only [decodeValidationError, decodeDetail_entries js entries hjs]
    rw [classify_validation resp.Body _ hu]
    simp only [GoSlice.ofList, List.map_map]
    rfl

set_option maxRecDepth 100000 in
theorem handleRequest_validation_message_witness :
    (handleRequest (clientOf ⟨"abc", "bearer"⟩ 422
      "\x7b\"detail\":[\x7b\"loc\":[\"body\",\"password\"],\"msg\":\"field required\",\"type\":\"value_error.missing\"\x7d,\x7b\"loc\":[],\"msg\":\"bad port\",\"type\":\"value_error\"\x7d]\x7d")
      plainRequest).err =
    some (errorsNew ("\n- Message: field required\n  Type: value_error.missing\n  Location: [body password]" ++
      "\n- Message: bad port\n  Type: value_error\n  Location: []")) :=
  (handleRequest_validation_message (clientOf ⟨"abc", "bearer"⟩ 422
      "\x7b\"detail\":[\x7b\"loc\":[\"body\",\"password\"],\"msg\":\"field required\",\"type\":\"value_error.missing\"\x7d,\x7b\"loc\":[],\"msg\":\"bad port\",\"type\":\"value_error\"\x7d]\x7d")
    plainRequest
    ⟨422, "\x7b\"detail\":[\x7b\"loc\":[\"body\",\"password\"],\"msg\":\"field required\",\"type\":\"value_error.missing\"\x7d,\x7b\"loc\":[],\"msg\":\"bad port\",\"type\":\"value_error\"\x7d]\x7d", none⟩
    rfl rfl rfl).1
    ⟨GoSlice.ofList [⟨GoSlice.ofList ["body", "password"], "field required", "value_error.missing"⟩,
      ⟨GoSlice.ofList [], "bad port", "value_error"⟩]⟩
    (by decide)

/-- C5: for a response with status 401 or 422 whose body `json.Unmarshal` rejects (as an
`Error` for 401, as a `ValidationError` for 422), `handleRequest` returns the error of
`json.Unmarshal` itself, which is not an error built by `errors.New`. -/
theorem handleRequest_parse_error (client : Client) (req : Request) (resp : Response)
    (e : GoError)
    (hdo : client.httpClient (authorize client req) = Except.ok resp)
    (hread : resp.ReadErr = none)
    (hparse : (resp.StatusCode = 401 ∧ (Unmarshal decodeError resp.Body ⟨""⟩).2 = some e) ∨
      (resp.StatusCode = 422 ∧
        (Unmarshal decodeValidationError resp.Body ⟨GoSlice.nil⟩).2 = some e)) :
    (handleRequest client req).err = some e ∧ e.isJSONError = true ∧
      ∀ msg, e ≠ errorsNew msg := by
  rw [handleRequest_ok client req resp hdo hread]
  show classify resp.StatusCode resp.Body = some e ∧ _
  have hj : e.isJSONError = true := by
    rcases hparse with ⟨_, h⟩ | ⟨_, h⟩
    · exact fromJSON_Unmarshal decodeError fromJSON_decodeError _ _ e h
    · exact fromJSON_Unmarshal decodeValidationError fromJSON_decodeValidationError _ _ e h
  refine ⟨?_, hj, ?_⟩
  · unfold classify
    rcases hparse with ⟨hc, h⟩ | ⟨hc, h⟩
    · rw [hc, if_neg (by decide), if_pos rfl]
      split
      · next _ err heq => rw [heq] at h; exact h
      · next _ heq => rw [heq] at h; cases h
    · rw [hc, if_neg (by decide), if_neg (by decide), if_pos rfl]
      split
      · next _ err heq => rw [heq] at h; exact h
      · next _ heq => rw [heq] at h; cases h
  · rintro msg rfl
    cases hj

theorem handleRequest_parse_error_witness :
    ((handleRequest (clientOf ⟨"abc", "bearer"⟩ 401 "<html>Unauthorized</html>") plainRequest).err
        = some GoError.syntaxError ∧ GoError.syntaxError.isJSONError = true ∧
      ∀ msg, GoError.syntaxError ≠ errorsNew msg) ∧
    ((handleRequest (clientOf ⟨"abc", "bearer"⟩ 422 "\x7b\"detail\":\"oops\"\x7d") plainRequest).err
        = some (GoError.unmarshalTypeError "string" "[]path.ValidationErrorItem") ∧
      (GoError.unmarshalTypeError "string" "[]path.ValidationErrorItem").isJSONError = true ∧
      ∀ msg, GoError.unmarshalTypeError "string" "[]path.ValidationErrorItem" ≠ errorsNew msg) :=
  ⟨handleRequest_parse_error (clientOf ⟨"abc", "bearer"⟩ 401 "<html>Unauthorized</html>")
      plainRequest ⟨401, "<html>Unauthorized</html>", none⟩ GoError.syntaxError rfl rfl
      (Or.inl ⟨rfl, by decide⟩),
    handleRequest_parse_error (clientOf ⟨"abc", "bearer"⟩ 422 "\x7b\"detail\":\"oops\"\x7d")
      plainRequest ⟨422, "\x7b\"detail\":\"oops\"\x7d", none⟩
      (GoError.unmarshalTypeError "string" "[]path.ValidationErrorItem") rfl rfl
      (Or.inr ⟨rfl, by decide⟩)⟩

/-! ## The Authorization header -/

/-- C6: the request `handleRequest` sends is the request it was given when the client holds
no access token; when it holds one, the value `<token type> <access token>` is appended
under the key Authorization, and every other header, the method, the URL and the body are
those of the request given. -/
theorem handleRequest_authorization (client : Client) (req : Request) :
    (client.token.AccessToken = "" → (handleRequest client req).sent = req) ∧
    (client.token.AccessToken ≠ "" →
      (handleRequest client req).sent.Header "Authorization" =
          some ((req.Header "Authorization").getD [] ++
            [client.token.TokenType ++ " " ++ client.token.AccessToken]) ∧
      (∀ key, key ≠ "Authorization" →
        (handleRequest client req).sent.Header key = req.Header key) ∧
      (handleRequest client req).sent.Method = req.Method ∧
      (handleRequest client req).sent.URL = req.URL ∧
      (handleRequest client req).sent.Body = req.Body) := by
  have hsent : (handleRequest client req).sent = authorize client req := by
    unfold handleRequest
    split
    · rfl
    · split <;> rfl
  rw [hsent]
  constructor
  · intro h
    unfold authorize
    rw [if_neg (not_not.mpr h)]
  · intro h
    unfold authorize
    rw [if_pos h]
    refine ⟨?_, ?_, rfl, rfl, rfl⟩
    · simp only [Header.Add, if_true]
    · intro key hk
      simp only [Header.Add, if_neg hk]

theorem handleRequest_authorization_witness :
    (handleRequest (clientOf ⟨"abc", "bearer"⟩ 200 "\x7b\x7d") jsonRequest).sent.Header "Authorization"
      = some ["bearer abc"] ∧
    (handleRequest (clientOf ⟨"abc", "bearer"⟩ 200 "\x7b\x7d") jsonRequest).sent.Header "Content-Type"
      = some ["application/json"] ∧
    (handleRequest (clientOf ⟨"", "bearer"⟩ 200 "\x7b\x7d") jsonRequest).sent.Header "Authorization"
      = none :=
  ⟨((handleRequest_authorization (clientOf ⟨"abc", "bearer"⟩ 200 "\x7b\x7d") jsonRequest).2
      (by decide)).1,
    by rw [((handleRequest_authorization (clientOf ⟨"abc", "bearer"⟩ 200 "\x7b\x7d") jsonRequest).2
      (by decide)).2.1 "Content-Type" (by decide)]; rfl,
    by rw [(handleRequest_authorization (clientOf ⟨"", "bearer"⟩ 200 "\x7b\x7d") jsonRequest).1 rfl]; rfl⟩

/-! ## The token -/

/-- C7: `GetToken` either returns an error and leaves the token of the client as it was,
or returns no error and sets the token to the `Token` decoded, without error, from the body
that `handleRequest` returned without error. -/
theorem GetToken_atomic (parseURL : String → Option GoError) (client : Client)
    (request : AccessTokenRequest) :
    (∀ e, (GetToken parseURL client request).2 = some e →
      (GetToken parseURL client request).1.token = client.token) ∧
    ((GetToken parseURL client request).2 = none →
      ∃ req, tokenRequest parseURL client request = Except.ok req ∧
        (handleRequest client req).err = none ∧
        Unmarshal decodeToken (handleRequest client req).body ⟨"", ""⟩ =
          ((GetToken parseURL client request).1.token, none)) := by
  unfold GetToken
  cases hreq : tokenRequest parseURL client request with
  | error err => exact ⟨fun _ _ => rfl, fun h => by cases h⟩
  | ok req =>
    simp only
    cases herr : (handleRequest client req).err with
    | some err => exact ⟨fun _ _ => rfl, fun h => by cases h⟩
    | none =>
      simp only
      rcases hu : Unmarshal decodeToken (handleRequest client req).body ⟨"", ""⟩ with ⟨tok, oe⟩
      cases oe with
      | none => exact ⟨fun _ h => (by cases h), fun _ => ⟨req, rfl, herr, hu⟩⟩
      | some err => exact ⟨fun _ _ => rfl, fun h => by cases h⟩

theorem GetToken_atomic_witness :
    (GetToken acceptURL (clientOf ⟨"old", "bearer"⟩ 200 "\x7b\"access_token\":\"abc\",\"token_type\":\"bearer\"\x7d")
        ⟨"password", "user", "secret", "", "", ""⟩).1.token = ⟨"abc", "bearer"⟩ ∧
    (GetToken acceptURL (clientOf ⟨"old", "bearer"⟩ 200 "\x7b\"access_token\":\"abc\",\"token_type\":7\x7d")
        ⟨"password", "user", "secret", "", "", ""⟩).1.token = ⟨"old", "bearer"⟩ ∧
    (GetToken acceptURL (clientOf ⟨"old", "bearer"⟩ 401 "\x7b\"detail\":\"Incorrect username or password\"\x7d")
        ⟨"password", "user", "secret", "", "", ""⟩).1.token = ⟨"old", "bearer"⟩ := by
  refine ⟨?_, ?_, ?_⟩
  · decide
  · exact (GetToken_atomic acceptURL
      (clientOf ⟨"old", "bearer"⟩ 200 "\x7b\"access_token\":\"abc\",\"token_type\":7\x7d")
      ⟨"password", "user", "secret", "", "", ""⟩).1
      (GoError.unmarshalTypeError "number" "string") (by decide)
  · exact (GetToken_atomic acceptURL
      (clientOf ⟨"old", "bearer"⟩ 401 "\x7b\"detail\":\"Incorrect username or password\"\x7d")
      ⟨"password", "user", "secret", "", "", ""⟩).1
      (errorsNew "Incorrect username or password") (by decide)

/-! ## Acknowledgements -/

theorem decodeAcknowledgement_flag (b : Bool) :
    decodeAcknowledgement (JSON.obj [("acknowledged", JSON.bool b)]) ⟨false⟩ = (⟨b⟩, none) := by
  cases b <;> rfl

theorem acknowledged_flag (client : Client) (req : Request) (resp : Response) (b : Bool)
    (hdo : client.httpClient (authorize client req) = Except.ok resp)
    (hread : resp.ReadErr = none)
    (hcode : resp.StatusCode = 200 ∨ resp.StatusCode = 202)
    (hbody : JSONText (JSON.obj [("acknowledged", JSON.bool b)]) resp.Body) :
    acknowledged (handleRequest client req) =
      if b = true then none else some (errorsNew "request was not acknowledged") := by
  have hh := handleRequest_ok client req resp hdo hread
  have hb : (handleRequest client req).body = resp.Body := by rw [hh]
  have he : (handleRequest client req).err = none := by
    rw [hh]; exact classify_success resp.StatusCode resp.Body hcode
  have hu : Unmarshal decodeAcknowledgement resp.Body ⟨false⟩ = (⟨b⟩, none) := by
    unfold Unmarshal
    rw [parseJSON_text _ _ hbody]
    exact decodeAcknowledgement_flag b
  unfold acknowledged
  rw [he]
  simp only [hb, hu]
  cases b <;> simp

theorem deleteResource_flag (parseURL : String → Option GoError) (client : Client)
    (loc : String) (req : Request) (resp : Response) (b : Bool)
    (hreq : deleteRequest parseURL client loc = Except.ok req)
    (hdo : client.httpClient (authorize client req) = Except.ok resp)
    (hread : resp.ReadErr = none)
    (hcode : resp.StatusCode = 200 ∨ resp.StatusCode = 202)
    (hbody : JSONText (JSON.obj [("acknowledged", JSON.bool b)]) resp.Body) :
    deleteResource parseURL client loc =
      if b = true then none else some (errorsNew "request was not acknowledged") := by
  have hd : deleteResource parseURL client loc = acknowledged (handleRequest client req) := by
    unfold deleteResource
    rw [hreq]
  rw [hd]
  exact acknowledged_flag client req resp b hdo hread hcode hbody

/-- C8: for each delete operation and for `ChangePassword`, whenever the request the
operation builds is answered with status 200 or 202 and a body that is a JSON text of the
object with the one member "acknowledged" of value `b`, the operation returns no error when
`b` is true and the error "request was not acknowledged" when `b` is false. Nothing is
assumed of the answers to other requests or of the URLs `url.Parse` accepts beyond the
request at hand having been built. -/
theorem acknowledgement_reported (parseURL : String → Option GoError) (client : Client)
    (b : Bool) :
    (∀ loc req resp, deleteRequest parseURL client loc = Except.ok req →
      client.httpClient (authorize client req) = Except.ok resp → resp.ReadErr = none →
      (resp.StatusCode = 200 ∨ resp.StatusCode = 202) →
      JSONText (JSON.obj [("acknowledged", JSON.bool b)]) resp.Body →
      deleteResource parseURL client loc =
        if b = true then none else some (errorsNew "request was not acknowledged")) ∧
    (∀ ruleID req resp, deleteRequest parseURL client ("/rules/" ++ ruleID) = Except.ok req →
      client.httpClient (authorize client req) = Except.ok resp → resp.ReadErr = none →
      (resp.StatusCode = 200 ∨ resp.StatusCode = 202) →
      JSONText (JSON.obj [("acknowledged", JSON.bool b)]) resp.Body →
      DeleteRule parseURL client ruleID =
        if b = true then none else some (errorsNew "request was not acknowledged")) ∧
    (∀ rateLimiterID req resp,
      deleteRequest parseURL client ("/rate_limiters/" ++ rateLimiterID) = Except.ok req →
      client.httpClient (authorize client req) = Except.ok resp → resp.ReadErr = none →
      (resp.StatusCode = 200 ∨ resp.StatusCode = 202) →
      JSONText (JSON.obj [("acknowledged", JSON.bool b)]) resp.Body →
      DeleteRateLimiter parseURL client rateLimiterID =
        if b = true then none else some (errorsNew "request was not acknowledged")) ∧
    (∀ network prefixLength req resp,
      deleteRequest parseURL client ("/diversions/" ++ network ++ "/" ++ fmtInt prefixLength)
        = Except.ok req →
      client.httpClient (authorize client req) = Except.ok resp → resp.ReadErr = none →
      (resp.StatusCode = 200 ∨ resp.StatusCode = 202) →
      JSONText (JSON.obj [("acknowledged", JSON.bool b)]) resp.Body →
      DeleteDiversion parseURL client network prefixLength =
        if b = true then none else some (errorsNew "request was not acknowledged")) ∧
    (∀ filterType filterID req resp,
      deleteRequest parseURL client ("/filters/" ++ filterType ++ "/" ++ filterID)
        = Except.ok req →
      client.httpClient (authorize client req) = Except.ok resp → resp.ReadErr = none →
      (resp.StatusCode = 200 ∨ resp.StatusCode = 202) →
      JSONText (JSON.obj [("acknowledged", JSON.bool b)]) resp.Body →
      DeleteFilter parseURL client filterType filterID =
        if b = true then none else some (errorsNew "request was not acknowledged")) ∧
    (∀ oldPassword newPassword req resp,
      passwordRequest parseURL client oldPassword newPassword = Except.ok req →
      client.httpClient (authorize client req) = Except.ok resp → resp.ReadErr = none →
      (resp.StatusCode = 200 ∨ resp.StatusCode = 202) →
      JSONText (JSON.obj [("acknowledged", JSON.bool b)]) resp.Body →
      ChangePassword parseURL client oldPassword newPassword =
        if b = true then none else some (errorsNew "request was not acknowledged")) := by
  refine ⟨?_, ?_, ?_, ?_, ?_, ?_⟩
  · intro loc req resp hreq hdo hread hcode hbody
    exact deleteResource_flag parseURL client loc req resp b hreq hdo hread hcode hbody
  · intro ruleID req resp hreq hdo hread hcode hbody
    exact deleteResource_flag parseURL client _ req resp b hreq hdo hread hcode hbody
  · intro rateLimiterID req resp hreq hdo hread hcode hbody
    exact deleteResource_flag parseURL client _ req resp b hreq hdo hread hcode hbody
  · intro network prefixLength req resp hreq hdo hread hcode hbody
    exact deleteResource_flag parseURL client _ req resp b hreq hdo hread hcode hbody
  · intro filterType filterID req resp hreq hdo hread hcode hbody
    exact deleteResource_flag parseURL client _ req resp b hreq hdo hread hcode hbody
  · intro o n req resp hreq hdo hread hcode hbody
    have hd : ChangePassword parseURL client o n = acknowledged (handleRequest client req) := by
      unfold ChangePassword
      rw [hreq]
    rw [hd]
    exact acknowledged_flag client req resp b hdo hread hcode hbody

theorem acknowledgement_reported_witness :
    DeleteRule rejectBadURL deleteOnlyClient "rule-1" = none ∧
    rejectBadURL "://bad" ≠ none ∧
    deleteOnlyClient.httpClient plainRequest = Except.ok ⟨405, "", none⟩ ∧
    ChangePassword acceptURL (clientOf ⟨"abc", "bearer"⟩ 200 "\x7b\"acknowledged\":false\x7d") "old" "new" =
      some (errorsNew "request was not acknowledged") :=
  ⟨(acknowledgement_reported rejectBadURL deleteOnlyClient true).2.1 "rule-1" _
      ⟨202, "\x7b\"acknowledged\":true\x7d", none⟩ rfl rfl rfl (Or.inr rfl)
      (jsonText_compact (JSON.obj [("acknowledged", JSON.bool true)])
        (by intro m hm; simp only [List.mem_singleton] at hm; subst hm; exact True.intro)),
    by decide,
    rfl,
    (acknowledgement_reported acceptURL
      (clientOf ⟨"abc", "bearer"⟩ 200 "\x7b\"acknowledged\":false\x7d") false).2.2.2.2.2
      "old" "new" _ ⟨200, "\x7b\"acknowledged\":false\x7d", none⟩ rfl rfl rfl (Or.inl rfl)
      (jsonText_compact (JSON.obj [("acknowledged", JSON.bool false)])
        (by intro m hm; simp only [List.mem_singleton] at hm; subst hm; exact True.intro))⟩

/-! ## The JSON of a rule -/

theorem writable_ruleMembers (rule : Rule) : ∀ m ∈ ruleMembers rule, Writable 9999 m.2 := by
  intro m hm
  simp only [ruleMembers, List.mem_append, List.mem_cons, List.mem_singleton,
    List.not_mem_nil, or_false] at hm
  rcases hm with hm | hm | hm | (hm | hm | hm | hm | hm | hm) | hm
  · split at hm
    · cases hm
    · simp only [List.mem_singleton] at hm; subst hm; exact True.intro
  · split at hm
    · cases hm
    · simp only [List.mem_singleton] at hm; subst hm; exact numLit_fmtInt _
  · split at hm
    · cases hm
    · simp only [List.mem_singleton] at hm; subst hm; exact numLit_fmtInt _
  · subst hm; cases rule.RateLimiterID <;> exact True.intro
  · subst hm; exact True.intro
  · subst hm; exact True.intro
  · subst hm; exact True.intro
  · subst hm; exact True.intro
  · subst hm; exact True.intro
  · split at hm
    · cases hm
    · simp only [List.mem_singleton] at hm; subst hm; exact True.intro

theorem ruleMembers_rate_limiter_id (rule : Rule) :
    (ruleMembers rule).filter (fun m => m.1 = "rate_limiter_id") =
      [("rate_limiter_id", encodePointer rule.RateLimiterID)] := by
  unfold ruleMembers
  split_ifs <;> simp [List.filter]

/-- C9: the body `CreateRule` sends is the JSON of the rule, and read as JSON it is an
object with exactly one member "rate_limiter_id", whose value is `null` when `RateLimiterID`
is nil (so not the string "") and the string `s` when it points to `s`. -/
theorem marshalRule_rate_limiter_id (rule : Rule) :
    (∀ parseURL client req, createRuleRequest parseURL client rule = Except.ok req →
      req.Body = RequestBody.text (marshalRule rule)) ∧
    ∃ ms, parseJSON (marshalRule rule) = some (JSON.obj ms) ∧
      ((rule.RateLimiterID = none →
        ms.filter (fun m => m.1 = "rate_limiter_id") = [("rate_limiter_id", JSON.null)]) ∧
      (∀ s, rule.RateLimiterID = some s →
        ms.filter (fun m => m.1 = "rate_limiter_id") = [("rate_limiter_id", JSON.str s)])) := by
  constructor
  · intro parseURL client req h
    unfold createRuleRequest NewRequest at h
    split at h
    · cases h
    · injection h with h; subst h; rfl
  · refine ⟨ruleMembers rule, parseJSON_compact _ (writable_ruleMembers rule), ?_, ?_⟩
    · intro h
      rw [ruleMembers_rate_limiter_id, h]; rfl
    · intro s h
      rw [ruleMembers_rate_limiter_id, h]; rfl

set_option maxRecDepth 100000 in
theorem marshalRule_rate_limiter_id_witness :
    marshalRule openRule =
      "\x7b\"protocol\":\"tcp\",\"dst_port\":443,\"rate_limiter_id\":null,\"whitelist\":true,\"destination\":\"192.0.2.1/32\",\"source\":\"0.0.0.0/0\",\"priority\":false,\"comment\":\"allow \\u003chttps\\u003e\"\x7d" ∧
    ∃ ms, parseJSON (marshalRule openRule) = some (JSON.obj ms) ∧
      ms.filter (fun m => m.1 = "rate_limiter_id") = [("rate_limiter_id", JSON.null)] :=
  ⟨by decide,
    (marshalRule_rate_limiter_id openRule).2.imp fun _ h => ⟨h.1, h.2.1 rfl⟩⟩

/-- C10: for every body that is a JSON text of an object with the one member "detail", an
array whose N elements are objects with a "loc" array of strings, a "msg" string and a
"type" string, `json.Unmarshal` into a `ValidationError` succeeds and gives N items in the
order of the array, each with the location path, the message and the type of its entry;
decoding into an `HTTPValidationError` gives the same items. -/
theorem Unmarshal_validation_error (entries : List (List String × String × String))
    (js : List JSON) (body : String)
    (hjs : List.Forall₂ IsEntry js entries)
    (hbody : JSONText (JSON.obj [("detail", JSON.arr js)]) body) :
    Unmarshal decodeValidationError body ⟨GoSlice.nil⟩ =
      (⟨GoSlice.ofList (entries.map entryItem)⟩, none) ∧
    Unmarshal decodeHTTPValidationError body ⟨GoSlice.nil⟩ =
      (⟨GoSlice.ofList (entries.map entryItem)⟩, none) := by
  have hd := decodeDetail_entries js entries hjs
  constructor
  · unfold Unmarshal
    rw [parseJSON_text _ _ hbody]
    simp only [decodeValidationError, hd]
  · unfold Unmarshal
    rw [parseJSON_text _ _ hbody]
    simp only [decodeHTTPValidationError, hd]

theorem Unmarshal_validation_error_witness :
    Unmarshal decodeValidationError
      "\x7b\"detail\":[\x7b\"loc\":[\"body\",\"password\"],\"msg\":\"field required\",\"type\":\"value_error.missing\"\x7d]\x7d"
      ⟨GoSlice.nil⟩ =
      (⟨GoSlice.ofList [⟨GoSlice.ofList ["body", "password"], "field required",
        "value_error.missing"⟩]⟩, none) ∧
    Unmarshal decodeHTTPValidationError
      "\x7b\"detail\":[\x7b\"loc\":[\"body\",\"password\"],\"msg\":\"field required\",\"type\":\"value_error.missing\"\x7d]\x7d"
      ⟨GoSlice.nil⟩ =
      (⟨GoSlice.ofList [⟨GoSlice.ofList ["body", "password"], "field required",
        "value_error.missing"⟩]⟩, none) :=
  Unmarshal_validation_error [(["body", "password"], "field required", "value_error.missing")]
    [JSON.obj (entryMembers (["body", "password"], "field required", "value_error.missing"))]
    "\x7b\"detail\":[\x7b\"loc\":[\"body\",\"password\"],\"msg\":\"field required\",\"type\":\"value_error.missing\"\x7d]\x7d"
    (List.Forall₂.cons ⟨_, rfl, List.Perm.refl _⟩ List.Forall₂.nil)
    (jsonText_compact (JSON.obj [("detail", JSON.arr
        [JSON.obj (entryMembers (["body", "password"], "field required", "value_error.missing"))])])
      (by simp [Writable, maxNestingDepth, entryMembers]))

/-! ## The request for a token -/

theorem handleRequest_sent (client : Client) (req : Request) :
    (handleRequest client req).sent = authorize client req := by
  unfold handleRequest
  split
  · rfl
  · split <;> rfl

theorem tokenRequest_ok (parseURL : String → Option GoError) (client : Client)
    (request : AccessTokenRequest) (req : Request)
    (h : tokenRequest parseURL client request = Except.ok req) :
    req.Method = "POST" ∧ req.URL = client.baseURL ++ "/token" ∧
      req.Header "Authorization" = none := by
  unfold tokenRequest NewRequest at h
  cases hp : parseURL (client.baseURL ++ "/token") with
  | some e => rw [hp] at h; cases h
  | none =>
    rw [hp] at h
    injection h with h
    subst h
    exact ⟨rfl, rfl, rfl⟩

/-- C11, as amended: the request `GetToken` sends is a POST to `/token` that carries no
Authorization header when the client holds no access token, as the client `NewClient`
starts from does; when the client already holds an access token, the request carries the
one Authorization value `<token type> <access token>`. -/
theorem GetToken_request_authorization (parseURL : String → Option GoError) (client : Client)
    (request : AccessTokenRequest) (req : Request)
    (h : tokenRequest parseURL client request = Except.ok req) :
    (handleRequest client req).sent.Method = "POST" ∧
    (handleRequest client req).sent.URL = client.baseURL ++ "/token" ∧
    (client.token.AccessToken = "" →
      (handleRequest client req).sent.Header "Authorization" = none) ∧
    (client.token.AccessToken ≠ "" →
      (handleRequest client req).sent.Header "Authorization" =
        some [client.token.TokenType ++ " " ++ client.token.AccessToken]) ∧
    (∀ httpClient, client = freshClient httpClient →
      (handleRequest client req).sent.Header "Authorization" = none) := by
  obtain ⟨hm, hu, ha⟩ := tokenRequest_ok parseURL client request req h
  rw [handleRequest_sent]
  have hempty : client.token.AccessToken = "" → (authorize client req).Header "Authorization" = none := by
    intro ht
    unfold authorize
    rw [if_neg (not_not.mpr ht)]
    exact ha
  refine ⟨?_, ?_, hempty, ?_, ?_⟩
  · unfold authorize; split <;> exact hm
  · unfold authorize; split <;> exact hu
  · intro ht
    unfold authorize
    rw [if_pos ht]
    simp only [Header.Add, if_true, ha, Option.getD_none, List.nil_append]
  · rintro httpClient rfl
    exact hempty rfl

theorem GetToken_request_authorization_witness :
    (∃ req, tokenRequest acceptURL (freshClient (serve 200 "")) passwordGrant = Except.ok req ∧
      (handleRequest (freshClient (serve 200 "")) req).sent.Header "Authorization" = none) ∧
    (∃ req, tokenRequest acceptURL (clientOf ⟨"abc", "bearer"⟩ 200 "") passwordGrant
        = Except.ok req ∧
      (handleRequest (clientOf ⟨"abc", "bearer"⟩ 200 "") req).sent.Header "Authorization"
        = some ["bearer abc"]) :=
  ⟨⟨_, rfl, (GetToken_request_authorization acceptURL (freshClient (serve 200 "")) passwordGrant
      _ rfl).2.2.1 rfl⟩,
    ⟨_, rfl, (GetToken_request_authorization acceptURL (clientOf ⟨"abc", "bearer"⟩ 200 "")
      passwordGrant _ rfl).2.2.2.1 (by decide)⟩⟩

/-- C11 as stated fails: a client that holds the token "abc" of type "bearer" sends its
request for a new token to `/token` with the header `Authorization: bearer abc`. -/
theorem GetToken_request_authorization_counterexample :
    ∃ req, tokenRequest acceptURL (clientOf ⟨"abc", "bearer"⟩ 200 "") passwordGrant
        = Except.ok req ∧
      (handleRequest (clientOf ⟨"abc", "bearer"⟩ 200 "") req).sent.URL
        = "https://api.path.net/token" ∧
      (handleRequest (clientOf ⟨"abc", "bearer"⟩ 200 "") req).sent.Header "Authorization"
        = some ["bearer abc"] ∧
      (handleRequest (clientOf ⟨"abc", "bearer"⟩ 200 "") req).sent.Header "Authorization" ≠ none :=
  ⟨_, rfl, by decide, by decide, by decide⟩

/-! ## The acknowledgement and the decode error -/

theorem acknowledged_ok (client : Client) (req : Request) (resp : Response)
    (hdo : client.httpClient (authorize client req) = Except.ok resp)
    (hread : resp.ReadErr = none)
    (hcode : resp.StatusCode = 200 ∨ resp.StatusCode = 202) :
    acknowledged (handleRequest client req) =
      if (Unmarshal decodeAcknowledgement resp.Body ⟨false⟩).1.Acknowledged = true then
        (Unmarshal decodeAcknowledgement resp.Body ⟨false⟩).2
      else some (errorsNew "request was not acknowledged") := by
  have hh := handleRequest_ok client req resp hdo hread
  have hb : (handleRequest client req).body = resp.Body := by rw [hh]
  have he : (handleRequest client req).err = none := by
    rw [hh]; exact classify_success resp.StatusCode resp.Body hcode
  unfold acknowledged
  rw [he]
  simp only [hb]
  cases (Unmarshal decodeAcknowledgement resp.Body ⟨false⟩).1.Acknowledged <;> simp

theorem Unmarshal_invalid {α : Type} (dec : JSON → α → α × Option GoError) (data : String)
    (v : α) (h : parseJSON data = none) : Unmarshal dec data v = (v, some GoError.syntaxError) := by
  unfold Unmarshal
  rw [h]

theorem acknowledged_order (client : Client) (req : Request) (resp : Response)
    (hdo : client.httpClient (authorize client req) = Except.ok resp)
    (hread : resp.ReadErr = none)
    (hcode : resp.StatusCode = 200 ∨ resp.StatusCode = 202) :
    (parseJSON resp.Body = none →
      Unmarshal decodeAcknowledgement resp.Body ⟨false⟩ = (⟨false⟩, some GoError.syntaxError) ∧
      acknowledged (handleRequest client req) =
        some (errorsNew "request was not acknowledged")) ∧
    (∀ e, acknowledged (handleRequest client req) = some e → e.isJSONError = true →
      (Unmarshal decodeAcknowledgement resp.Body ⟨false⟩).1.Acknowledged = true ∧
      (Unmarshal decodeAcknowledgement resp.Body ⟨false⟩).2 = some e) := by
  rw [acknowledged_ok client req resp hdo hread hcode]
  constructor
  · intro hbad
    have hu := Unmarshal_invalid decodeAcknowledgement resp.Body ⟨false⟩ hbad
    refine ⟨hu, ?_⟩
    rw [hu]
    rfl
  · intro e he hj
    by_cases hflag : (Unmarshal decodeAcknowledgement resp.Body ⟨false⟩).1.Acknowledged = true
    · rw [if_pos hflag] at he
      exact ⟨hflag, he⟩
    · rw [if_neg hflag] at he
      injection he with he
      subst he
      cases hj

/-- C12: in `deleteResource` and `ChangePassword`, for a response with status 200 or 202
whose body is not valid JSON, decoding into `Acknowledgement` fails with the flag left
false, and the error returned is "request was not acknowledged", not the error of
`json.Unmarshal`; whenever one of the two returns an error of `json.Unmarshal` after such a
status, the flag decoded from the body is true and the error is the decode error. -/
theorem acknowledgement_before_decode_error (parseURL : String → Option GoError)
    (client : Client) :
    (∀ loc req resp, deleteRequest parseURL client loc = Except.ok req →
      client.httpClient (authorize client req) = Except.ok resp → resp.ReadErr = none →
      (resp.StatusCode = 200 ∨ resp.StatusCode = 202) →
      (parseJSON resp.Body = none →
        Unmarshal decodeAcknowledgement resp.Body ⟨false⟩ =
          (⟨false⟩, some GoError.syntaxError) ∧
        deleteResource parseURL client loc = some (errorsNew "request was not acknowledged")) ∧
      (∀ e, deleteResource parseURL client loc = some e → e.isJSONError = true →
        (Unmarshal decodeAcknowledgement resp.Body ⟨false⟩).1.Acknowledged = true ∧
        (Unmarshal decodeAcknowledgement resp.Body ⟨false⟩).2 = some e)) ∧
    (∀ oldPassword newPassword req resp,
      passwordRequest parseURL client oldPassword newPassword = Except.ok req →
      client.httpClient (authorize client req) = Except.ok resp → resp.ReadErr = none →
      (resp.StatusCode = 200 ∨ resp.StatusCode = 202) →
      (parseJSON resp.Body = none →
        Unmarshal decodeAcknowledgement resp.Body ⟨false⟩ =
          (⟨false⟩, some GoError.syntaxError) ∧
        ChangePassword parseURL client oldPassword newPassword =
          some (errorsNew "request was not acknowledged")) ∧
      (∀ e, ChangePassword parseURL client oldPassword newPassword = some e →
        e.isJSONError = true →
        (Unmarshal decodeAcknowledgement resp.Body ⟨false⟩).1.Acknowledged = true ∧
        (Unmarshal decodeAcknowledgement resp.Body ⟨false⟩).2 = some e)) := by
  constructor
  · intro loc req resp hreq hdo hread hcode
    have hd : deleteResource parseURL client loc = acknowledged (handleRequest client req) := by
      unfold deleteResource
      rw [hreq]
    rw [hd]
    exact acknowledged_order client req resp hdo hread hcode
  · intro o n req resp hreq hdo hread hcode
    have hd : ChangePassword parseURL client o n = acknowledged (handleRequest client req) := by
      unfold ChangePassword
      rw [hreq]
    rw [hd]
    exact acknowledged_order client req resp hdo hread hcode

theorem acknowledgement_before_decode_error_witness :
    (Unmarshal decodeAcknowledgement "<html>deleted</html>" ⟨false⟩ =
        (⟨false⟩, some GoError.syntaxError) ∧
      deleteResource acceptURL (clientOf ⟨"abc", "bearer"⟩ 200 "<html>deleted</html>") "/rules/rule-1"
        = some (errorsNew "request was not acknowledged")) ∧
    (Unmarshal decodeAcknowledgement "" ⟨false⟩ = (⟨false⟩, some GoError.syntaxError) ∧
      ChangePassword acceptURL (clientOf ⟨"abc", "bearer"⟩ 202 "") "old" "new"
        = some (errorsNew "request was not acknowledged")) ∧
    (deleteResource acceptURL
        (clientOf ⟨"abc", "bearer"⟩ 200 "\x7b\"acknowledged\":true,\"acknowledged\":3\x7d") "/rules/rule-1"
        = some (GoError.unmarshalTypeError "number" "bool") ∧
      (Unmarshal decodeAcknowledgement "\x7b\"acknowledged\":true,\"acknowledged\":3\x7d" ⟨false⟩).1.Acknowledged
        = true) :=
  ⟨((acknowledgement_before_decode_error acceptURL
      (clientOf ⟨"abc", "bearer"⟩ 200 "<html>deleted</html>")).1 "/rules/rule-1" _
      ⟨200, "<html>deleted</html>", none⟩ rfl rfl rfl (Or.inl rfl)).1 rfl,
    ((acknowledgement_before_decode_error acceptURL
      (clientOf ⟨"abc", "bearer"⟩ 202 "")).2 "old" "new" _
      ⟨202, "", none⟩ rfl rfl rfl (Or.inr rfl)).1 rfl,
    by decide,
    (((acknowledgement_before_decode_error acceptURL
      (clientOf ⟨"abc", "bearer"⟩ 200 "\x7b\"acknowledged\":true,\"acknowledged\":3\x7d")).1
      "/rules/rule-1" _ ⟨200, "\x7b\"acknowledged\":true,\"acknowledged\":3\x7d", none⟩ rfl rfl rfl
      (Or.inl rfl)).2 (GoError.unmarshalTypeError "number" "bool") (by decide) rfl).1⟩

end Path
